import Mathlib

/-!
Verification of the LexRag retrieval core: a shallow embedding of
`metrics.py` (class `RetrievalMetrics`) and `vector_store.py`
(class `LegalVectorStore`), with theorems settling the specified
properties of the ranking metrics, the embedding-provider fallback,
the retry/backoff policy, batched insertion, and degraded search.

Modelling conventions:
* Python floats are modelled as exact numbers: `ℚ` where the code only
  does field arithmetic, `ℝ` where `np.log2` is involved (NDCG).
* A Python `dict` is an association list whose keys are unique; reading
  uses `List.lookup` (first match) and insertion (`dictInsert`) updates
  in place or appends, exactly like CPython insertion-order dicts.
* A Python `set` of strings is a `Finset String`.
* Exceptions are `Except` values; external services (the Mistral
  embeddings endpoint, the Chroma collection) are oracles passed in as
  functions, so one run of the model corresponds to one concrete
  behaviour of the outside world.
-/

namespace LexRag

/-! ### Python dict primitives -/

/-- `d.get(key, 0.0)` on a float-valued dict. -/
def lookupScore (scores : List (String × ℚ)) (d : String) : ℚ :=
  (scores.lookup d).getD 0

/-- CPython dict assignment `m[k] = v`: overwrite in place if the key is
present (keeping its position), otherwise append at the end. -/
def dictInsert {β : Type} (m : List (String × β)) (k : String) (v : β) :
    List (String × β) :=
  if (m.lookup k).isSome then
    m.map (fun p => if p.1 = k then (k, v) else p)
  else
    m ++ [(k, v)]

/-- Build a dict from a list of key/value pairs, later pairs winning
(the semantics of a Python dict comprehension over those pairs). -/
def dictOfPairs {β : Type} (l : List (String × β)) : List (String × β) :=
  l.foldl (fun m p => dictInsert m p.1 p.2) []

/-! ### `metrics.py`: `RetrievalMetrics` -/

/-- `RetrievalMetrics.recall_at_k`. -/
def recall_at_k (retrieved_ids : List String) (relevant_ids : Finset String)
    (k : ℕ) : ℚ :=
  if relevant_ids = ∅ then 0
  else
    (((retrieved_ids.take k).toFinset ∩ relevant_ids).card : ℚ) /
      (relevant_ids.card : ℚ)

/-- `RetrievalMetrics.precision_at_k`. -/
def precision_at_k (retrieved_ids : List String) (relevant_ids : Finset String)
    (k : ℕ) : ℚ :=
  if k = 0 then 0
  else (((retrieved_ids.take k).toFinset ∩ relevant_ids).card : ℚ) / (k : ℚ)

/-- The loop of `RetrievalMetrics.mean_reciprocal_rank`:
`for i, doc_id in enumerate(retrieved_ids, 1)` with 1-based counter `i`. -/
def mrrAux (relevant_ids : Finset String) : List String → ℕ → ℚ
  | [], _ => 0
  | d :: ds, i => if d ∈ relevant_ids then 1 / (i : ℚ) else mrrAux relevant_ids ds (i + 1)

/-- `RetrievalMetrics.mean_reciprocal_rank`. -/
def mean_reciprocal_rank (retrieved_ids : List String)
    (relevant_ids : Finset String) : ℚ :=
  mrrAux relevant_ids retrieved_ids 1

/-- The loop of `RetrievalMetrics.average_precision`: collects
`precision = relevant_count / i` at every 1-based position `i` holding a
relevant id (`cnt` is `relevant_count` so far). -/
def apAux (relevant_ids : Finset String) : List String → ℕ → ℕ → List ℚ
  | [], _, _ => []
  | d :: ds, i, cnt =>
    if d ∈ relevant_ids then
      ((cnt + 1 : ℕ) : ℚ) / (i : ℚ) :: apAux relevant_ids ds (i + 1) (cnt + 1)
    else
      apAux relevant_ids ds (i + 1) cnt

/-- `RetrievalMetrics.average_precision`. -/
def average_precision (retrieved_ids : List String)
    (relevant_ids : Finset String) : ℚ :=
  if relevant_ids = ∅ then 0
  else
    let precisions := apAux relevant_ids retrieved_ids 1 0
    if precisions = [] then 0
    else precisions.sum / (relevant_ids.card : ℚ)

/-- The inner `dcg` of `RetrievalMetrics.ndcg_at_k`, after the `ids[:k]`
truncation: `rel / np.log2(i + 1)` summed with 1-based counter `i`. -/
noncomputable def dcgAux (scores : List (String × ℚ)) : List String → ℕ → ℝ
  | [], _ => 0
  | d :: ds, i =>
    (lookupScore scores d : ℝ) / Real.logb 2 ((i : ℝ) + 1) + dcgAux scores ds (i + 1)

/-- `dcg(ids, scores, k)` from `RetrievalMetrics.ndcg_at_k`. -/
noncomputable def dcg (ids : List String) (scores : List (String × ℚ)) (k : ℕ) : ℝ :=
  dcgAux scores (ids.take k) 1

/-- The comparison used by
`sorted(relevance_scores.keys(), key=lambda x: relevance_scores[x], reverse=True)`:
Python's sort is stable, and with `reverse=True` it keeps the original
order of keys with equal scores, which is exactly a stable merge sort by
the relation "score of `a` is at least score of `b`". -/
def descByScore (scores : List (String × ℚ)) (a b : String) : Bool :=
  decide (lookupScore scores b ≤ lookupScore scores a)

/-- `ideal_ids` of `RetrievalMetrics.ndcg_at_k`. -/
def idealOrder (scores : List (String × ℚ)) : List String :=
  (scores.map Prod.fst).mergeSort (descByScore scores)

/-- `RetrievalMetrics.ndcg_at_k`. -/
noncomputable def ndcg_at_k (retrieved_ids : List String)
    (relevance_scores : List (String × ℚ)) (k : ℕ) : ℝ :=
  if relevance_scores = [] then 0
  else
    let ideal_dcg := dcg (idealOrder relevance_scores) relevance_scores k
    if ideal_dcg = 0 then 0
    else dcg retrieved_ids relevance_scores k / ideal_dcg

/-! ### `metrics.py`: `calculate_all_metrics` -/

/-- One element of the `retrieved_docs` argument of
`calculate_all_metrics`: only the fields the function reads are kept.
`case_name` is `None` when the doc has no metadata dict or the metadata
has no `"case_name"` key (the code treats both identically); `idField`
is the document's own `"id"`-like field, which `calculate_all_metrics`
never reads. -/
structure RetrievedDoc where
  case_name : Option String
  distance : Option ℚ
  idField : Option String
deriving Repr, DecidableEq

instance : Inhabited RetrievedDoc := ⟨⟨none, none, none⟩⟩

/-- `retrieved_ids = [doc.get("metadata", {}).get("case_name", str(i)) for i, doc in enumerate(retrieved_docs)]`. -/
def rankedIdsOf (docs : List RetrievedDoc) : List String :=
  docs.enum.map (fun p => p.2.case_name.getD (toString p.1))

/-- `distances = [doc.get("distance", 1.0) for doc in retrieved_docs]`. -/
def distancesOf (docs : List RetrievedDoc) : List ℚ :=
  docs.map (fun d => d.distance.getD 1)

/-- `relevance_scores = {doc_id: 1.0 - dist for doc_id, dist in zip(retrieved_ids, distances)}`. -/
def relevanceScoresOf (docs : List RetrievedDoc) : List (String × ℚ) :=
  dictOfPairs ((rankedIdsOf docs).zip ((distancesOf docs).map (fun d => 1 - d)))

/-- Python `np.mean` of a list of floats. -/
def pyMean (l : List ℚ) : ℚ := l.sum / (l.length : ℚ)

/-- Python `min(distances) if distances else 1.0`. -/
def pyMinDist : List ℚ → ℚ
  | [] => 1
  | d :: ds => ds.foldl min d

/-- Python `max(distances) if distances else 1.0`. -/
def pyMaxDist : List ℚ → ℚ
  | [] => 1
  | d :: ds => ds.foldl max d

/-- Assemble a Python dict from entries written in program order. -/
def mkDict {β : Type} (entries : List (String × β)) : List (String × β) :=
  entries.foldl (fun m p => dictInsert m p.1 p.2) []

/-- `RetrievalMetrics.calculate_all_metrics`.  The result is the
`metrics` dict; `relevant = none` models passing `relevant_doc_ids=None`.
Note `if relevant_doc_ids:` in Python is false for `None` *and* for an
empty set. -/
noncomputable def calculate_all_metrics (retrieved_docs : List RetrievedDoc)
    (relevant_doc_ids : Option (Finset String)) (k_values : List ℕ) :
    List (String × ℝ) :=
  let retrieved_ids := rankedIdsOf retrieved_docs
  let distances := distancesOf retrieved_docs
  let relevance_scores := relevanceScoresOf retrieved_docs
  let base : List (String × ℝ) := [
    ("total_retrieved", (retrieved_docs.length : ℝ)),
    ("avg_relevance_score",
      if relevance_scores = [] then 0
      else ((pyMean (relevance_scores.map Prod.snd) : ℚ) : ℝ)),
    ("min_distance", ((pyMinDist distances : ℚ) : ℝ)),
    ("max_distance", ((pyMaxDist distances : ℚ) : ℝ))]
  let tail : List (String × ℝ) :=
    match relevant_doc_ids with
    | some rel =>
      if rel = ∅ then
        k_values.flatMap (fun k =>
          [("ndcg@" ++ toString k, ndcg_at_k retrieved_ids relevance_scores k)])
      else
        ("mrr", ((mean_reciprocal_rank retrieved_ids rel : ℚ) : ℝ)) ::
        k_values.flatMap (fun k =>
          [("recall@" ++ toString k, ((recall_at_k retrieved_ids rel k : ℚ) : ℝ)),
           ("precision@" ++ toString k, ((precision_at_k retrieved_ids rel k : ℚ) : ℝ)),
           ("ndcg@" ++ toString k, ndcg_at_k retrieved_ids relevance_scores k)])
    | none =>
      k_values.flatMap (fun k =>
        [("ndcg@" ++ toString k, ndcg_at_k retrieved_ids relevance_scores k)])
  mkDict (base ++ tail)

/-- The keys of a metrics dict. -/
def metricKeys {β : Type} (m : List (String × β)) : List String := m.map Prod.fst

/-- The four aggregate entries every `calculate_all_metrics` call
reports. -/
def aggregateKeys : List String :=
  ["total_retrieved", "avg_relevance_score", "min_distance", "max_distance"]

/-! ### `vector_store.py`: `LegalVectorStore`

The store's configuration and the behaviour of the two external
services (the Mistral embeddings endpoint and the Chroma collection)
are explicit parameters; one choice of oracle functions is one concrete
behaviour of the outside world. -/

/-- Constructor state of `LegalVectorStore` relevant to embedding:
`mistralConfigured` is `self.mistral_client is not None` (an API key was
given or found in the environment), `localAvailable` is whether
`sentence_transformers` imported. -/
structure VSConfig where
  mistralConfigured : Bool
  useLocalFallback : Bool
  batchRetryAttempts : ℕ
  localAvailable : Bool
deriving Repr, DecidableEq

/-- The constructor default `batch_retry_attempts: int = 6`. -/
def defaultBatchRetryAttempts : ℕ := 6

/-- Outcome of one call to `self.mistral_client.embeddings.create`:
either the embeddings, or an exception whose message is `msg`. -/
inductive MistralOutcome where
  | success (vecs : List (List ℚ))
  | failure (msg : String)
deriving Repr, DecidableEq

/-- The exceptions `_embed_with_mistral` / `_embed_with_fallback` raise. -/
inductive EmbedError where
  | mistralNotConfigured
  | mistralExhausted (lastErr : Option String)
  | localUnavailable
deriving Repr, DecidableEq

/-- Whether `p` is an initial segment of `l` (character lists). -/
def hasPrefixChars : List Char → List Char → Bool
  | [], _ => true
  | _ :: _, [] => false
  | a :: p, b :: l => a == b && hasPrefixChars p l

/-- Whether `p` occurs contiguously inside `l` (character lists). -/
def hasInfixChars (p : List Char) : List Char → Bool
  | [] => hasPrefixChars p []
  | b :: l => hasPrefixChars p (b :: l) || hasInfixChars p l

/-- Python `pat in hay` on strings. -/
def containsSub (hay pat : String) : Bool := hasInfixChars pat.data hay.data

/-- The crude status detection of `_embed_with_mistral`:
`any(code in msg for code in [" 429", " 500", " 502", " 503", " 504"])`
with `msg = str(e).lower()` (lowercasing modelled per character; the
patterns contain only digits and spaces, which lowercasing fixes). -/
def retryableMsg (msg : String) : Bool :=
  [" 429", " 500", " 502", " 503", " 504"].any
    (fun code => hasInfixChars code.data (msg.data.map Char.toLower))

/-- The `while attempt < max_attempts` loop of `_embed_with_mistral`.
`remaining` is `max_attempts - attempt`; the result pairs the returned
value (or raised error) with the list of `time.sleep` durations, in
order.  On a retryable failure the code sleeps `backoff` seconds and
doubles `backoff`, even when that was the last allowed attempt; on a
non-retryable failure it breaks out and raises at once. -/
def mistralLoop (attemptOutcome : ℕ → MistralOutcome) :
    ℕ → ℕ → ℚ → Option String → (Except EmbedError (List (List ℚ))) × List ℚ
  | 0, _, _, lastErr => (.error (.mistralExhausted lastErr), [])
  | remaining + 1, attempt, backoff, _ =>
    match attemptOutcome attempt with
    | .success vecs => (.ok vecs, [])
    | .failure msg =>
      if retryableMsg msg then
        let rest := mistralLoop attemptOutcome remaining (attempt + 1) (backoff * 2) (some msg)
        (rest.1, backoff :: rest.2)
      else
        (.error (.mistralExhausted (some msg)), [])

/-- `LegalVectorStore._embed_with_mistral`: `texts` is the input batch,
`attemptOutcome texts i` the outcome of the `i`-th API call on it.
`max_attempts = max(1, int(self.batch_retry_attempts))`, `backoff`
starts at `1.0`. -/
def embedWithMistral (cfg : VSConfig)
    (attemptOutcome : List String → ℕ → MistralOutcome) (texts : List String) :
    (Except EmbedError (List (List ℚ))) × List ℚ :=
  if cfg.mistralConfigured then
    mistralLoop (attemptOutcome texts) (max 1 cfg.batchRetryAttempts) 0 1 none
  else
    (.error .mistralNotConfigured, [])

/-- The local path of `_embed_with_fallback`: `_ensure_local_embedder`
raises when `sentence_transformers` is missing, otherwise
`self.local_embedder.encode(safe_texts)` yields `localEmbed texts`. -/
def localEmbedOutcome (cfg : VSConfig)
    (localEmbed : List String → List (List ℚ)) (texts : List String) :
    Except EmbedError (List (List ℚ)) :=
  if cfg.localAvailable then .ok (localEmbed texts) else .error .localUnavailable

/-- `LegalVectorStore._embed_with_fallback`: try Mistral when a client
is configured; on failure re-raise if `use_local_fallback` is off,
otherwise (and also whenever no client is configured) use the local
model.  The second component keeps the retry sleeps for observability. -/
def embedWithFallback (cfg : VSConfig)
    (attemptOutcome : List String → ℕ → MistralOutcome)
    (localEmbed : List String → List (List ℚ)) (texts : List String) :
    (Except EmbedError (List (List ℚ))) × List ℚ :=
  if cfg.mistralConfigured then
    match embedWithMistral cfg attemptOutcome texts with
    | (.ok vecs, sleeps) => (.ok vecs, sleeps)
    | (.error e, sleeps) =>
      if !cfg.useLocalFallback then (.error e, sleeps)
      else (localEmbedOutcome cfg localEmbed texts, sleeps)
  else
    (localEmbedOutcome cfg localEmbed texts, [])

/-- `LegalVectorStore.get_embeddings`, the public helper. -/
def get_embeddings (cfg : VSConfig)
    (attemptOutcome : List String → ℕ → MistralOutcome)
    (localEmbed : List String → List (List ℚ)) (texts : List String) :
    (Except EmbedError (List (List ℚ))) × List ℚ :=
  embedWithFallback cfg attemptOutcome localEmbed texts

/-! ### `vector_store.py`: `add_documents` -/

/-- One element of the `documents` argument of `add_documents`; every
field the function reads, each optional as in a Python dict. -/
structure AddDoc where
  id : Option String
  text : Option String
  snippet : Option String
  case_name : Option String
  citation : Option String
  court : Option String
  jurisdiction : Option String
  date_filed : Option String
  document_type : Option String
  url : Option String
deriving Repr, DecidableEq

/-- The metadata record `add_documents` builds per document. -/
structure DocMetadata where
  case_name : String
  citation : String
  court : String
  jurisdiction : String
  date_filed : String
  document_type : String
  url : String
deriving Repr, DecidableEq

/-- The `metadatas.append({...})` body of `add_documents`. -/
def metadataOf (d : AddDoc) : DocMetadata :=
  ⟨d.case_name.getD "Unknown", d.citation.getD "N/A", d.court.getD "unknown",
   d.jurisdiction.getD "unknown", d.date_filed.getD "", d.document_type.getD "case_law",
   d.url.getD ""⟩

/-- `str(doc.get("id", f"doc_{i + j}"))` for the document at absolute
position `pos = i + j`. -/
def idAt (pos : ℕ) (d : AddDoc) : String :=
  d.id.getD ("doc_" ++ toString pos)

/-- `doc.get("text") or doc.get("snippet", "")`: Python `or` falls
through on a missing *or empty* text. -/
def textOf (d : AddDoc) : String :=
  let t := d.text.getD ""
  if t = "" then d.snippet.getD "" else t

/-- A record persisted by `self.collection.add`. -/
structure StoredRec where
  id : String
  embedding : List ℚ
  text : String
  metadata : DocMetadata
deriving Repr, DecidableEq

/-- Structural worker for `toBatches`: `fuel` only bounds the
recursion depth (any `fuel ≥ l.length` gives the same result, since a
positive batch size consumes at least one element per step). -/
def toBatchesFuel {α : Type} (bs : ℕ) : ℕ → List α → List (List α)
  | _, [] => []
  | 0, _ :: _ => []
  | fuel + 1, x :: xs =>
    if bs = 0 then []
    else (x :: xs).take bs :: toBatchesFuel bs fuel ((x :: xs).drop bs)

/-- `documents[i : i + batch_size]` slices, in order.  Python's
`range(0, total, 0)` raises `ValueError`; a zero batch size is outside
the modelled domain and returns `[]`. -/
def toBatches {α : Type} (bs : ℕ) (l : List α) : List (List α) :=
  toBatchesFuel bs l.length l

/-- The records `collection.add` stores for one batch (documents paired
with their absolute positions) given the embeddings returned for it. -/
def batchRecords (b : List (ℕ × AddDoc)) (vecs : List (List ℚ)) : List StoredRec :=
  (b.zip vecs).map (fun q => ⟨idAt q.1.1 q.1.2, q.2, textOf q.1.2, metadataOf q.1.2⟩)

/-- The per-batch `try/except` loop of `add_documents`.  `batchEmbed b`
is the outcome of `get_embeddings` (and the subsequent
`collection.add`) for batch number `b`: an exception there is caught
and the loop continues with the next batch. -/
def addLoop (batchEmbed : ℕ → Except Unit (List (List ℚ))) :
    List (List (ℕ × AddDoc)) → ℕ → ℕ × List StoredRec
  | [], _ => (0, [])
  | b :: bs, bidx =>
    let rest := addLoop batchEmbed bs (bidx + 1)
    match batchEmbed bidx with
    | .ok vecs => (b.length + rest.1, batchRecords b vecs ++ rest.2)
    | .error _ => rest

/-- The final `print(f"Successfully added {added}/{total} documents")`
report of `add_documents`, plus the records actually persisted. -/
structure AddReport where
  added : ℕ
  total : ℕ
  persisted : List StoredRec
deriving Repr, DecidableEq

/-- `LegalVectorStore.add_documents`. -/
def add_documents (documents : List AddDoc) (batch_size : ℕ)
    (batchEmbed : ℕ → Except Unit (List (List ℚ))) : AddReport :=
  if documents = [] then ⟨0, 0, []⟩
  else
    let r := addLoop batchEmbed (toBatches batch_size documents.enum) 0
    ⟨r.1, documents.length, r.2⟩

/-! ### `vector_store.py`: `search` -/

/-- The shape Chroma's `collection.query` returns (and the empty result
`search` builds by hand on total failure). -/
structure QueryResult where
  documents : List (List String)
  metadatas : List (List DocMetadata)
  distances : List (List ℚ)
deriving Repr, DecidableEq

/-- `{"documents": [[]], "metadatas": [[]], "distances": [[]]}`. -/
def emptyQueryResult : QueryResult := ⟨[[]], [[]], [[]]⟩

/-- `where_filter` construction of `search`: Python
`if jurisdiction and jurisdiction != "all"` is false for `None`, the
empty string, and `"all"`. -/
def mkWhereFilter (jurisdiction : Option String) : Option String :=
  match jurisdiction with
  | some j => if j ≠ "" ∧ j ≠ "all" then some j else none
  | none => none

/-- External behaviour `search` depends on: embedding the query text
(through `get_embeddings`, both backends included), and the collection's
vector and text query endpoints, each taking the `where` filter and
`n_results`. -/
structure SearchBackend where
  embedQuery : String → Except EmbedError (List ℚ)
  vectorQuery : List ℚ → Option String → ℕ → Except Unit QueryResult
  textQuery : String → Option String → ℕ → Except Unit QueryResult

/-- The log line `search` prints when falling back to text search. -/
def searchDegradedLog : String :=
  "[Search] Embedding query failed; falling back to text search."

/-- The log line `search` prints when the text search also fails. -/
def searchTextFailedLog : String := "[Search] Text search also failed"

/-- `LegalVectorStore.search`: result paired with the printed log
lines.  Never raises: every failure path returns a `QueryResult`. -/
def search (be : SearchBackend) (query : String) (jurisdiction : Option String)
    (n_results : ℕ) : QueryResult × List String :=
  let where_filter := mkWhereFilter jurisdiction
  let attempt : Except Unit QueryResult :=
    match be.embedQuery query with
    | .error _ => .error ()
    | .ok emb => be.vectorQuery emb where_filter n_results
  match attempt with
  | .ok r => (r, [])
  | .error _ =>
    match be.textQuery query where_filter n_results with
    | .ok r => (r, [searchDegradedLog])
    | .error _ => (emptyQueryResult, [searchDegradedLog, searchTextFailedLog])

/-! ### Spec-side definitions (for refinement claims)

These follow the specification's wording, to be compared with the
definitions translated from the source. -/

/-- Number of relevant ids in a list (`relevant_count` as the spec
counts it at a prefix). -/
def countRelevant (rel : Finset String) (l : List String) : ℕ :=
  l.countP (fun d => decide (d ∈ rel))

/-- Modelled from the spec: "mean of precision values computed at each
rank position where a relevant id occurs" — the sum over 0-based
positions `i` holding a relevant id of
(relevant ids among the first `i+1`) / (i+1); positions with no
relevant id contribute nothing. -/
def apSpecSum (ids : List String) (rel : Finset String) : ℚ :=
  ∑ i ∈ Finset.range ids.length,
    if ids.getD i "" ∈ rel then
      ((countRelevant rel (ids.take (i + 1)) : ℕ) : ℚ) / (((i + 1 : ℕ)) : ℚ)
    else 0

/-- Modelled from the spec: `DCG@k = Σ_{i=1..k} relevance(id_i) / log2(i+1)`
over 1-based ranks of the given order (0-based `i` here, so the
discount is `log2(i+2)`); the sum ends where the order does. -/
noncomputable def dcgSpec (ids : List String) (scores : List (String × ℚ))
    (k : ℕ) : ℝ :=
  ∑ i ∈ Finset.range (min k ids.length),
    (lookupScore scores (ids.getD i "") : ℝ) / Real.logb 2 ((i : ℝ) + 2)

/-- Modelled from the spec: `DCG@k(actualOrder) / DCG@k(idealOrder)`,
`0` if the ideal DCG is `0` (never divide by zero), the ideal order
sorting all scored ids by descending relevance. -/
noncomputable def ndcgSpec (ids : List String) (scores : List (String × ℚ))
    (k : ℕ) : ℝ :=
  if dcgSpec (idealOrder scores) scores k = 0 then 0
  else dcgSpec ids scores k / dcgSpec (idealOrder scores) scores k

/-! ### Analysis helpers for the NDCG bound -/

/-- The relevance score read at position `j` of an order (0 when the
order is exhausted). -/
def valAt (scores : List (String × ℚ)) (l : List String) (j : ℕ) : ℝ :=
  match l[j]? with
  | some d => (lookupScore scores d : ℝ)
  | none => 0

/-- The score sequence of the ideal order. -/
def sVal (scores : List (String × ℚ)) (i : ℕ) : ℝ :=
  valAt scores (idealOrder scores) i

/-- The DCG discount weight at 0-based position `j`. -/
noncomputable def wDisc (j : ℕ) : ℝ := (Real.logb 2 ((j : ℝ) + 2))⁻¹

/-! ## Theorems -/

/-! ### C4: mean reciprocal rank -/

lemma mrrAux_of_first (rel : Finset String) :
    ∀ (l : List String) (i r : ℕ) (hr : r < l.length),
      l.get ⟨r, hr⟩ ∈ rel → (∀ d ∈ l.take r, d ∉ rel) →
      mrrAux rel l i = 1 / ((i + r : ℕ) : ℚ) := by
  intro l
  induction l with
  | nil => intro i r hr; simp at hr
  | cons d ds ih =>
    intro i r hr hmem hbefore
    cases r with
    | zero =>
      simp only [List.get] at hmem
      simp [mrrAux, hmem]
    | succ r' =>
      have hd : d ∉ rel := by
        apply hbefore
        simp [List.take_succ_cons]
      simp only [mrrAux, if_neg hd]
      have := ih (i + 1) r' (by simpa using Nat.lt_of_succ_lt_succ hr)
        (by simpa using hmem)
        (by intro x hx; exact hbefore x (by simp [List.take_succ_cons, hx]))
      rw [this]
      congr 2
      omega

lemma mrrAux_of_none (rel : Finset String) :
    ∀ (l : List String) (i : ℕ), (∀ d ∈ l, d ∉ rel) → mrrAux rel l i = 0 := by
  intro l
  induction l with
  | nil => intro i _; simp [mrrAux]
  | cons d ds ih =>
    intro i h
    have hd : d ∉ rel := h d (by simp)
    simp only [mrrAux, if_neg hd]
    exact ih (i + 1) (fun x hx => h x (by simp [hx]))

/-- C4: `mean_reciprocal_rank` returns `1/r` where `r` is the 1-based
rank of the first relevant id in the full list (stated with 0-based
position `r₀`, so the value is `1/(r₀+1)`); it returns 0 when no
relevant id appears anywhere; and on ranked ids `["a","b","c"]` with
relevant set `{"b"}` it returns `0.5`. -/
theorem mean_reciprocal_rank_correct :
    (∀ (ids : List String) (rel : Finset String) (r : ℕ) (hr : r < ids.length),
       ids.get ⟨r, hr⟩ ∈ rel → (∀ d ∈ ids.take r, d ∉ rel) →
       mean_reciprocal_rank ids rel = 1 / ((r + 1 : ℕ) : ℚ)) ∧
    (∀ (ids : List String) (rel : Finset String),
       (∀ d ∈ ids, d ∉ rel) → mean_reciprocal_rank ids rel = 0) ∧
    mean_reciprocal_rank ["a", "b", "c"] {"b"} = 1 / 2 := by
  refine ⟨?_, ?_, ?_⟩
  · intro ids rel r hr hmem hbefore
    rw [mean_reciprocal_rank, mrrAux_of_first rel ids 1 r hr hmem hbefore]
    congr 2
    omega
  · intro ids rel h
    exact mrrAux_of_none rel ids 1 h
  · norm_num [mean_reciprocal_rank, mrrAux]
    decide

/-- Witness for C4 at a concrete input. -/
theorem mean_reciprocal_rank_correct_witness :
    mean_reciprocal_rank ["a", "b", "c"] {"b"} = 1 / ((1 + 1 : ℕ) : ℚ) :=
  mean_reciprocal_rank_correct.1 ["a", "b", "c"] {"b"} 1 (by norm_num)
    (by decide) (by decide)

/-! ### C3: average precision -/

lemma apAux_sum (rel : Finset String) :
    ∀ (l : List String) (i cnt : ℕ),
      (apAux rel l i cnt).sum =
        ∑ j ∈ Finset.range l.length,
          if l.getD j "" ∈ rel then
            ((cnt + countRelevant rel (l.take (j + 1)) : ℕ) : ℚ) / ((i + j : ℕ) : ℚ)
          else 0 := by
  intro l
  induction l with
  | nil => intro i cnt; simp [apAux]
  | cons d ds ih =>
    intro i cnt
    rw [List.length_cons, Finset.sum_range_succ']
    by_cases hd : d ∈ rel
    · simp only [apAux, if_pos hd, List.sum_cons, ih (i + 1) (cnt + 1)]
      have h0 : (if (d :: ds).getD 0 "" ∈ rel then
          ((cnt + countRelevant rel ((d :: ds).take (0 + 1)) : ℕ) : ℚ)
            / ((i + 0 : ℕ) : ℚ) else 0)
          = ((cnt + 1 : ℕ) : ℚ) / ((i : ℕ) : ℚ) := by
        simp [List.getD, countRelevant, hd]
      rw [h0, add_comm]
      congr 1
      apply Finset.sum_congr rfl
      intro j _
      have hget : (d :: ds).getD (j + 1) "" = ds.getD j "" := rfl
      have htake : countRelevant rel ((d :: ds).take (j + 1 + 1))
          = 1 + countRelevant rel (ds.take (j + 1)) := by
        rw [List.take_succ_cons]
        simp [countRelevant, List.countP_cons, hd]
        omega
      rw [hget, htake]
      by_cases hj : ds.getD j "" ∈ rel
      · rw [if_pos hj, if_pos hj]
        congr 2
        · omega
        · omega
      · rw [if_neg hj, if_neg hj]
    · simp only [apAux, if_neg hd, ih (i + 1) cnt]
      have h0 : (if (d :: ds).getD 0 "" ∈ rel then
          ((cnt + countRelevant rel ((d :: ds).take (0 + 1)) : ℕ) : ℚ)
            / ((i + 0 : ℕ) : ℚ) else 0) = 0 := by
        simp [List.getD, hd]
      rw [h0, add_zero]
      apply Finset.sum_congr rfl
      intro j _
      have hget : (d :: ds).getD (j + 1) "" = ds.getD j "" := rfl
      have htake : countRelevant rel ((d :: ds).take (j + 1 + 1))
          = countRelevant rel (ds.take (j + 1)) := by
        simp [List.take_succ_cons, countRelevant, hd]
      rw [hget, htake]
      by_cases hj : ds.getD j "" ∈ rel
      · rw [if_pos hj, if_pos hj]
        congr 2
        omega
      · rw [if_neg hj, if_neg hj]

lemma average_precision_eq (ids : List String) (rel : Finset String) :
    average_precision ids rel =
      if rel = ∅ then 0 else apSpecSum ids rel / (rel.card : ℚ) := by
  by_cases hrel : rel = ∅
  · simp [average_precision, hrel]
  · have hsum : (apAux rel ids 1 0).sum = apSpecSum ids rel := by
      rw [apAux_sum rel ids 1 0, apSpecSum]
      apply Finset.sum_congr rfl
      intro j _
      by_cases hj : ids.getD j "" ∈ rel
      · rw [if_pos hj, if_pos hj]
        congr 2
        · omega
        · omega
      · rw [if_neg hj, if_neg hj]
    simp only [average_precision, if_neg hrel]
    by_cases hp : apAux rel ids 1 0 = []
    · rw [hp] at hsum
      simp only [List.sum_nil] at hsum
      simp [hp, ← hsum]
    · simp [hp, hsum]

/-- C3: `average_precision` sums the precision values taken at each
1-based rank holding a relevant id, divides by the size of the relevant
set, and returns 0 when the relevant set is empty or no relevant id
occurs in the ranking. -/
theorem average_precision_correct :
    (∀ (ids : List String) (rel : Finset String),
       average_precision ids rel =
         if rel = ∅ then 0 else apSpecSum ids rel / (rel.card : ℚ)) ∧
    (∀ (ids : List String) (rel : Finset String), rel = ∅ →
       average_precision ids rel = 0) ∧
    (∀ (ids : List String) (rel : Finset String), (∀ d ∈ ids, d ∉ rel) →
       average_precision ids rel = 0) := by
  refine ⟨average_precision_eq, ?_, ?_⟩
  · intro ids rel h
    simp [average_precision, h]
  · intro ids rel h
    rw [average_precision_eq]
    by_cases hrel : rel = ∅
    · rw [if_pos hrel]
    · rw [if_neg hrel]
      have : apSpecSum ids rel = 0 := by
        rw [apSpecSum]
        apply Finset.sum_eq_zero
        intro j hj
        rw [Finset.mem_range] at hj
        have hmem : ids.getD j "" ∈ ids := by
          rw [List.getD_eq_getElem ids "" hj]
          exact List.getElem_mem hj
        rw [if_neg (h _ hmem)]
      rw [this, zero_div]

/-- Witness for C3 at concrete inputs. -/
theorem average_precision_correct_witness :
    average_precision ["a", "b"] {"z"} = 0 ∧ average_precision ["a"] ∅ = 0 :=
  ⟨average_precision_correct.2.2 ["a", "b"] {"z"} (by decide),
   average_precision_correct.2.1 ["a"] ∅ rfl⟩

/-! ### C2: NDCG refines the spec formula -/

lemma dcgAux_eq_sum (scores : List (String × ℚ)) :
    ∀ (l : List String) (i : ℕ),
      dcgAux scores l i = ∑ j ∈ Finset.range l.length,
        (lookupScore scores (l.getD j "") : ℝ) /
          Real.logb 2 ((i : ℝ) + (j : ℝ) + 1) := by
  intro l
  induction l with
  | nil => intro i; simp [dcgAux]
  | cons d ds ih =>
    intro i
    rw [List.length_cons, Finset.sum_range_succ', dcgAux, ih (i + 1)]
    conv_rhs => rw [add_comm]
    congr 1
    · norm_num [List.getD]
    · apply Finset.sum_congr rfl
      intro j _
      have hget : (d :: ds).getD (j + 1) "" = ds.getD j "" := rfl
      rw [hget]
      congr 1
      push_cast
      ring_nf

lemma dcg_eq_dcgSpec (ids : List String) (scores : List (String × ℚ)) (k : ℕ) :
    dcg ids scores k = dcgSpec ids scores k := by
  rw [dcg, dcgAux_eq_sum scores (ids.take k) 1, dcgSpec, List.length_take]
  apply Finset.sum_congr rfl
  intro j hj
  rw [Finset.mem_range] at hj
  have hj1 : j < k := lt_of_lt_of_le hj (min_le_left _ _)
  have hget : (ids.take k).getD j "" = ids.getD j "" := by
    rw [List.getD_eq_getElem?_getD, List.getD_eq_getElem?_getD, List.getElem?_take,
      if_pos hj1]
  rw [hget]
  have harg : ((1 : ℕ) : ℝ) + (j : ℝ) + 1 = (j : ℝ) + 2 := by push_cast; ring
  rw [harg]

/-- C2: `ndcg_at_k` returns `DCG@k(actual) / DCG@k(ideal)` with
`DCG@k = Σ_{i=1..k} relevance(id_i) / log2(i+1)` over 1-based ranks,
the ideal order sorting all scored ids by descending relevance, and
returns 0 whenever the ideal DCG is 0 — the guard makes division by
zero impossible. -/
theorem ndcg_at_k_refines_spec (ids : List String) (scores : List (String × ℚ))
    (k : ℕ) : ndcg_at_k ids scores k = ndcgSpec ids scores k := by
  by_cases hs : scores = []
  · subst hs
    have hideal : idealOrder ([] : List (String × ℚ)) = [] := by
      simp [idealOrder]
    simp [ndcg_at_k, ndcgSpec, hideal, dcgSpec]
  · simp only [ndcg_at_k, if_neg hs, ndcgSpec, dcg_eq_dcgSpec]

/-! ### C7: retry with exponential backoff -/

lemma mistralLoop_all_retryable (oracle : ℕ → MistralOutcome) (msgs : ℕ → String) :
    ∀ (r attempt : ℕ) (backoff : ℚ) (last : Option String), 0 < r →
      (∀ i, i < r → oracle (attempt + i) = .failure (msgs (attempt + i)) ∧
        retryableMsg (msgs (attempt + i)) = true) →
      mistralLoop oracle r attempt backoff last =
        (.error (.mistralExhausted (some (msgs (attempt + r - 1)))),
         (List.range r).map (fun i => backoff * 2 ^ i)) := by
  intro r
  induction r with
  | zero => intro attempt backoff last h; omega
  | succ r ih =>
    intro attempt backoff last _ h
    have h0 := h 0 (by omega)
    rw [Nat.add_zero] at h0
    simp only [mistralLoop, h0.1, h0.2, if_true]
    cases r with
    | zero =>
      simp [mistralLoop, List.range_succ]
    | succ r' =>
      have hrest := ih (attempt + 1) (backoff * 2) (some (msgs attempt)) (by omega)
        (by
          intro i hi
          have := h (i + 1) (by omega)
          constructor
          · rw [show attempt + 1 + i = attempt + (i + 1) from by omega]
            exact this.1
          · rw [show attempt + 1 + i = attempt + (i + 1) from by omega]
            exact this.2)
      rw [hrest]
      simp only [Prod.mk.injEq]
      refine ⟨?_, ?_⟩
      · rw [show attempt + 1 + (r' + 1) - 1 = attempt + (r' + 1 + 1) - 1 from by omega]
      · conv_rhs => rw [List.range_succ_eq_map, List.map_cons, List.map_map]
        congr 1
        · norm_num
        · apply List.map_congr_left
          intro i _
          simp only [Function.comp_apply, Nat.succ_eq_add_one, pow_succ]
          ring

/-- C7: a transient (rate-limit / server-capacity) failure is retried
with backoff doubling from 1 second up to `max(1, batch_retry_attempts)`
attempts (constructor default 6) and then raised as a terminal error,
while a non-transient failure is raised at once with no retry and no
sleep. -/
theorem embed_retry_policy :
    (∀ (cfg : VSConfig) (oracle : List String → ℕ → MistralOutcome)
       (texts : List String) (msgs : ℕ → String),
       cfg.mistralConfigured = true →
       (∀ i, i < max 1 cfg.batchRetryAttempts →
         oracle texts i = .failure (msgs i) ∧ retryableMsg (msgs i) = true) →
       embedWithMistral cfg oracle texts =
         (.error (.mistralExhausted (some (msgs (max 1 cfg.batchRetryAttempts - 1)))),
          (List.range (max 1 cfg.batchRetryAttempts)).map (fun i => (2 : ℚ) ^ i))) ∧
    (∀ (cfg : VSConfig) (oracle : List String → ℕ → MistralOutcome)
       (texts : List String) (msg : String),
       cfg.mistralConfigured = true →
       oracle texts 0 = .failure msg → retryableMsg msg = false →
       embedWithMistral cfg oracle texts =
         (.error (.mistralExhausted (some msg)), [])) ∧
    defaultBatchRetryAttempts = 6 := by
  refine ⟨?_, ?_, rfl⟩
  · intro cfg oracle texts msgs hconf h
    rw [embedWithMistral, if_pos (by rw [hconf])]
    rw [mistralLoop_all_retryable (oracle texts) msgs (max 1 cfg.batchRetryAttempts)
      0 1 none (by omega) (by simpa using h)]
    simp only [Prod.mk.injEq]
    refine ⟨by rw [Nat.zero_add], ?_⟩
    apply List.map_congr_left
    intro i _
    ring
  · intro cfg oracle texts msg hconf horacle hretry
    rw [embedWithMistral, if_pos (by rw [hconf])]
    obtain ⟨r, hr⟩ : ∃ r, max 1 cfg.batchRetryAttempts = r + 1 :=
      ⟨max 1 cfg.batchRetryAttempts - 1, by omega⟩
    rw [hr]
    simp [mistralLoop, horacle, hretry]

/-- Witness for C7 at a concrete configuration: three retryable
failures, ceiling 3, sleeps 1s, 2s, 4s. -/
theorem embed_retry_policy_witness :
    embedWithMistral ⟨true, true, 3, true⟩
        (fun _ _ => .failure "error 429 too many requests") ["t"] =
      (.error (.mistralExhausted (some "error 429 too many requests")),
       (List.range (max 1 3)).map (fun i => (2 : ℚ) ^ i)) := by
  have hr : retryableMsg "error 429 too many requests" = true := by decide
  exact embed_retry_policy.1 ⟨true, true, 3, true⟩
    (fun _ _ => .failure "error 429 too many requests") ["t"]
    (fun _ => "error 429 too many requests") rfl (fun _ _ => ⟨rfl, hr⟩)

/-! ### C6: disabled fallback -/

/-- C6 (amended): when a Mistral client is configured and the local
fallback is disabled, `get_embeddings` behaves exactly like
`_embed_with_mistral` — a terminal primary error is propagated
unchanged and local vectors are never produced; but when no client is
configured (no credential), the code uses the local fallback regardless
of the `use_local_fallback` toggle instead of failing. -/
theorem embed_fallback_disabled_policy :
    (∀ (cfg : VSConfig) (oracle : List String → ℕ → MistralOutcome)
       (localEmbed : List String → List (List ℚ)) (texts : List String),
       cfg.mistralConfigured = true → cfg.useLocalFallback = false →
       get_embeddings cfg oracle localEmbed texts = embedWithMistral cfg oracle texts) ∧
    (∀ (cfg : VSConfig) (oracle : List String → ℕ → MistralOutcome)
       (localEmbed : List String → List (List ℚ)) (texts : List String),
       cfg.mistralConfigured = false →
       get_embeddings cfg oracle localEmbed texts =
         (localEmbedOutcome cfg localEmbed texts, [])) := by
  constructor
  · intro cfg oracle localEmbed texts hconf hfb
    rw [get_embeddings, embedWithFallback, if_pos (by rw [hconf])]
    rcases h : embedWithMistral cfg oracle texts with ⟨res, sleeps⟩
    cases res with
    | ok vecs => rfl
    | error e => simp [hfb]
  · intro cfg oracle localEmbed texts hconf
    rw [get_embeddings, embedWithFallback, if_neg (by rw [hconf]; exact Bool.false_ne_true)]

/-- C6 counterexample: with no credential configured and the local
fallback disabled by configuration, `get_embeddings` silently returns
local vectors instead of failing — the claim's required error never
happens on this input. -/
theorem embed_fallback_disabled_counterexample :
    (get_embeddings ⟨false, false, 6, true⟩ (fun _ _ => .failure "boom")
      (fun _ => [[1]]) ["t"]).1 = .ok [[1]] := rfl

/-- Witness for C6 (amended) at a concrete input. -/
theorem embed_fallback_disabled_policy_witness :
    get_embeddings ⟨true, false, 1, true⟩ (fun _ _ => .failure "x")
        (fun _ => [[0]]) ["t"] =
      embedWithMistral ⟨true, false, 1, true⟩ (fun _ _ => .failure "x") ["t"] :=
  embed_fallback_disabled_policy.1 ⟨true, false, 1, true⟩
    (fun _ _ => .failure "x") (fun _ => [[0]]) ["t"] rfl rfl

/-! ### C8: partial batch failure in `add_documents` -/

lemma addLoop_added (batchEmbed : ℕ → Except Unit (List (List ℚ))) :
    ∀ (bs : List (List (ℕ × AddDoc))) (b0 : ℕ),
      (addLoop batchEmbed bs b0).1 =
        ∑ i ∈ Finset.range bs.length,
          if (batchEmbed (b0 + i)).isOk then (bs.getD i []).length else 0 := by
  intro bs
  induction bs with
  | nil => intro b0; simp [addLoop]
  | cons b rest ih =>
    intro b0
    rw [List.length_cons, Finset.sum_range_succ']
    have hsum : ∑ i ∈ Finset.range rest.length,
        (if (batchEmbed (b0 + (i + 1))).isOk then ((b :: rest).getD (i + 1) []).length else 0)
        = (addLoop batchEmbed rest (b0 + 1)).1 := by
      rw [ih (b0 + 1)]
      apply Finset.sum_congr rfl
      intro i _
      rw [show b0 + 1 + i = b0 + (i + 1) from by omega, List.getD_cons_succ]
    rw [hsum]
    cases hb : batchEmbed b0 with
    | ok vecs =>
      simp only [addLoop, hb, List.getD_cons_zero, Nat.add_zero, Except.isOk,
        Except.toBool, if_true]
      omega
    | error e =>
      simp only [addLoop, hb, List.getD_cons_zero, Nat.add_zero, Except.isOk,
        Except.toBool, Bool.false_eq_true, if_false]

lemma addLoop_persisted (batchEmbed : ℕ → Except Unit (List (List ℚ))) :
    ∀ (bs : List (List (ℕ × AddDoc))) (b0 i : ℕ) (vecs : List (List ℚ)),
      i < bs.length → batchEmbed (b0 + i) = .ok vecs →
      batchRecords (bs.getD i []) vecs <:+: (addLoop batchEmbed bs b0).2 := by
  intro bs
  induction bs with
  | nil => intro b0 i vecs hi; simp at hi
  | cons b rest ih =>
    intro b0 i vecs hi hok
    cases i with
    | zero =>
      rw [Nat.add_zero] at hok
      simp only [addLoop, hok, List.getD_cons_zero]
      exact (List.prefix_append _ _).isInfix
    | succ i' =>
      have hrec := ih (b0 + 1) i' vecs (by simp at hi; omega)
        (by rw [show b0 + 1 + i' = b0 + (i' + 1) from by omega]; exact hok)
      rw [List.getD_cons_succ]
      cases hb : batchEmbed b0 with
      | ok v =>
        simp only [addLoop, hb]
        exact hrec.trans (List.suffix_append _ _).isInfix
      | error e =>
        simp only [addLoop, hb]
        exact hrec

/-- C8: a batch failure does not abort `add_documents` — every batch
whose embedding succeeds is persisted regardless of other batches
failing, the final report states the persisted count against the
requested total, and in the concrete scenario of 10 documents in
batches of 2 with exactly one batch failing permanently, exactly 8
documents are persisted and the reported success count is 8. -/
theorem add_documents_partial_failure :
    (∀ (documents : List AddDoc) (batch_size : ℕ)
       (batchEmbed : ℕ → Except Unit (List (List ℚ))), 0 < batch_size →
       ((add_documents documents batch_size batchEmbed).total = documents.length ∧
        (add_documents documents batch_size batchEmbed).added =
          ∑ i ∈ Finset.range (toBatches batch_size documents.enum).length,
            (if (batchEmbed i).isOk then
              ((toBatches batch_size documents.enum).getD i []).length else 0) ∧
        (∀ (i : ℕ) (vecs : List (List ℚ)),
           i < (toBatches batch_size documents.enum).length →
           batchEmbed i = .ok vecs →
           batchRecords ((toBatches batch_size documents.enum).getD i []) vecs
             <:+: (add_documents documents batch_size batchEmbed).persisted))) ∧
    (add_documents
        ((List.range 10).map (fun i =>
          ({ id := some ("d" ++ toString i), text := some "t", snippet := none,
             case_name := none, citation := none, court := none,
             jurisdiction := none, date_filed := none, document_type := none,
             url := none } : AddDoc)))
        2 (fun b => if b = 2 then .error () else .ok [[1], [1]])).added = 8 ∧
    (add_documents
        ((List.range 10).map (fun i =>
          ({ id := some ("d" ++ toString i), text := some "t", snippet := none,
             case_name := none, citation := none, court := none,
             jurisdiction := none, date_filed := none, document_type := none,
             url := none } : AddDoc)))
        2 (fun b => if b = 2 then .error () else .ok [[1], [1]])).total = 10 ∧
    (add_documents
        ((List.range 10).map (fun i =>
          ({ id := some ("d" ++ toString i), text := some "t", snippet := none,
             case_name := none, citation := none, court := none,
             jurisdiction := none, date_filed := none, document_type := none,
             url := none } : AddDoc)))
        2 (fun b => if b = 2 then .error () else .ok [[1], [1]])).persisted.length = 8 := by
  refine ⟨?_, by decide, by decide, by decide⟩
  intro documents batch_size batchEmbed _hbs
  by_cases hdocs : documents = []
  · subst hdocs
    refine ⟨rfl, ?_, ?_⟩
    · simp [add_documents, toBatches, toBatchesFuel]
    · intro i vecs hi
      simp [toBatches, toBatchesFuel] at hi
  · refine ⟨?_, ?_, ?_⟩
    · simp [add_documents, hdocs]
    · simp only [add_documents, if_neg hdocs]
      rw [addLoop_added batchEmbed (toBatches batch_size documents.enum) 0]
      apply Finset.sum_congr rfl
      intro i _
      rw [Nat.zero_add]
    · intro i vecs hi hok
      simp only [add_documents, if_neg hdocs]
      exact addLoop_persisted batchEmbed (toBatches batch_size documents.enum) 0 i vecs hi
        (by rw [Nat.zero_add]; exact hok)

/-- Witness for C8 at a concrete input: 4 documents, batch size 3. -/
theorem add_documents_partial_failure_witness :
    (add_documents [⟨none, some "a", none, none, none, none, none, none, none, none⟩,
                    ⟨none, some "b", none, none, none, none, none, none, none, none⟩]
        3 (fun _ => .ok [[1], [2]])).total = 2 :=
  (add_documents_partial_failure.1
    [⟨none, some "a", none, none, none, none, none, none, none, none⟩,
     ⟨none, some "b", none, none, none, none, none, none, none, none⟩]
    3 (fun _ => .ok [[1], [2]]) (by norm_num)).1

/-! ### C5: which metrics `calculate_all_metrics` reports -/

lemma lookup_isSome_iff {β : Type} (k : String) :
    ∀ (m : List (String × β)), (m.lookup k).isSome ↔ k ∈ m.map Prod.fst := by
  intro m
  induction m with
  | nil => simp [List.lookup]
  | cons p t ih =>
    rcases p with ⟨a, b⟩
    by_cases hk : k = a
    · subst hk
      simp [List.lookup]
    · have hbeq : (k == a) = false := by
        simp [beq_iff_eq, hk]
      simp [List.lookup, hbeq, ih, hk]

lemma mem_keys_dictInsert {β : Type} (m : List (String × β)) (a k : String) (v : β) :
    k ∈ metricKeys (dictInsert m a v) ↔ k = a ∨ k ∈ metricKeys m := by
  simp only [metricKeys, dictInsert]
  by_cases hs : (m.lookup a).isSome
  · rw [if_pos hs]
    rw [lookup_isSome_iff] at hs
    simp only [List.mem_map] at hs
    obtain ⟨q, hq, hqa⟩ := hs
    simp only [List.map_map, List.mem_map, Function.comp_apply]
    constructor
    · rintro ⟨p, hp, hpk⟩
      by_cases hpa : p.1 = a
      · rw [if_pos hpa] at hpk
        exact Or.inl hpk.symm
      · rw [if_neg hpa] at hpk
        exact Or.inr ⟨p, hp, hpk⟩
    · rintro (rfl | ⟨p, hp, hpk⟩)
      · exact ⟨q, hq, by rw [if_pos hqa]⟩
      · by_cases hpa : p.1 = a
        · exact ⟨q, hq, by rw [if_pos hqa]; rw [← hpk, hpa]⟩
        · exact ⟨p, hp, by rw [if_neg hpa]; exact hpk⟩
  · rw [if_neg hs]
    simp [or_comm]

lemma mem_keys_foldl {β : Type} :
    ∀ (entries : List (String × β)) (m : List (String × β)) (k : String),
      k ∈ metricKeys (entries.foldl (fun acc p => dictInsert acc p.1 p.2) m) ↔
        k ∈ metricKeys m ∨ k ∈ entries.map Prod.fst := by
  intro entries
  induction entries with
  | nil => simp
  | cons p t ih =>
    intro m k
    rw [List.foldl_cons, ih, mem_keys_dictInsert]
    simp only [List.map_cons, List.mem_cons]
    tauto

lemma mem_keys_mkDict {β : Type} (entries : List (String × β)) (k : String) :
    k ∈ metricKeys (mkDict entries) ↔ k ∈ entries.map Prod.fst := by
  rw [mkDict, mem_keys_foldl]
  simp [metricKeys]

lemma str_append_ne_append (p₁ p₂ : String) (c₁ c₂ : Char) (r₁ r₂ : List Char)
    (h₁ : p₁.data = c₁ :: r₁) (h₂ : p₂.data = c₂ :: r₂) (hc : c₁ ≠ c₂) :
    ∀ s t : String, p₁ ++ s ≠ p₂ ++ t := by
  intro s t he
  have hd := congrArg String.data he
  rw [String.data_append, String.data_append, h₁, h₂] at hd
  simp only [List.cons_append, List.cons.injEq] at hd
  exact hc hd.1

lemma str_append_ne_lit (p lit : String) (c₁ c₂ : Char) (r₁ r₂ : List Char)
    (h₁ : p.data = c₁ :: r₁) (h₂ : lit.data = c₂ :: r₂) (hc : c₁ ≠ c₂) :
    ∀ s : String, p ++ s ≠ lit := by
  intro s he
  have hd := congrArg String.data he
  rw [String.data_append, h₁, h₂] at hd
  simp only [List.cons_append, List.cons.injEq] at hd
  exact hc hd.1

lemma ndcg_key_ne_mrr (s : String) : "ndcg@" ++ s ≠ "mrr" :=
  str_append_ne_lit "ndcg@" "mrr" 'n' 'm' ['d', 'c', 'g', '@'] ['r', 'r'] rfl rfl
    (by decide) s

lemma mem_keys_calculate_none (docs : List RetrievedDoc) (ks : List ℕ) (key : String) :
    key ∈ metricKeys (calculate_all_metrics docs none ks) ↔
      key ∈ aggregateKeys ∨ key ∈ ks.flatMap (fun k => ["ndcg@" ++ toString k]) := by
  simp only [calculate_all_metrics]
  rw [mem_keys_mkDict, List.map_append, List.mem_append]
  simp [aggregateKeys, List.map_flatMap]

lemma mem_keys_calculate_empty (docs : List RetrievedDoc) (ks : List ℕ) (key : String) :
    key ∈ metricKeys (calculate_all_metrics docs (some ∅) ks) ↔
      key ∈ aggregateKeys ∨ key ∈ ks.flatMap (fun k => ["ndcg@" ++ toString k]) := by
  simp only [calculate_all_metrics]
  rw [mem_keys_mkDict, List.map_append, List.mem_append]
  simp [aggregateKeys, List.map_flatMap]

lemma mem_keys_calculate_nonempty (docs : List RetrievedDoc) (r : Finset String)
    (ks : List ℕ) (key : String) (hr : r ≠ ∅) :
    key ∈ metricKeys (calculate_all_metrics docs (some r) ks) ↔
      key ∈ aggregateKeys ∨
      key ∈ "mrr" :: ks.flatMap (fun k =>
        ["recall@" ++ toString k, "precision@" ++ toString k,
         "ndcg@" ++ toString k]) := by
  simp only [calculate_all_metrics, if_neg hr]
  rw [mem_keys_mkDict, List.map_append, List.mem_append]
  simp [aggregateKeys, List.map_flatMap]

lemma key_notin_ndcg_list (pre : String) (c : Char) (rr : List Char)
    (hp : pre.data = c :: rr) (hc : c ≠ 'n') (s : String) (ks : List ℕ) :
    (pre ++ s) ∉ ks.flatMap (fun k => ["ndcg@" ++ toString k]) := by
  intro hmem
  obtain ⟨k, -, hkey⟩ := List.mem_flatMap.mp hmem
  simp only [List.mem_singleton] at hkey
  exact str_append_ne_append "ndcg@" pre 'n' c _ _ rfl hp (fun h => hc h.symm)
    (toString k) s hkey.symm

lemma mrr_notin_ndcg_list (ks : List ℕ) :
    "mrr" ∉ ks.flatMap (fun k => ["ndcg@" ++ toString k]) := by
  intro hmem
  obtain ⟨k, -, hkey⟩ := List.mem_flatMap.mp hmem
  simp only [List.mem_singleton] at hkey
  exact ndcg_key_ne_mrr _ hkey.symm


lemma key_notin_aggregate (pre : String) (c : Char) (rr : List Char)
    (hp : pre.data = c :: rr) (h1 : c ≠ 't') (h2 : c ≠ 'a') (h3 : c ≠ 'm')
    (s : String) : (pre ++ s) ∉ aggregateKeys := by
  intro hmem
  rcases (by simpa [aggregateKeys] using hmem : _ ∨ _ ∨ _ ∨ _) with h | h | h | h
  · exact str_append_ne_lit pre "total_retrieved" c 't' _ _ hp rfl h1 s h
  · exact str_append_ne_lit pre "avg_relevance_score" c 'a' _ _ hp rfl h2 s h
  · exact str_append_ne_lit pre "min_distance" c 'm' _ _ hp rfl h3 s h
  · exact str_append_ne_lit pre "max_distance" c 'm' _ _ hp rfl h3 s h

lemma calculate_all_metrics_keys_presence
    (docs : List RetrievedDoc) (rel : Option (Finset String)) (ks : List ℕ) :
    ("total_retrieved" ∈ metricKeys (calculate_all_metrics docs rel ks) ∧
     "avg_relevance_score" ∈ metricKeys (calculate_all_metrics docs rel ks) ∧
     "min_distance" ∈ metricKeys (calculate_all_metrics docs rel ks) ∧
     "max_distance" ∈ metricKeys (calculate_all_metrics docs rel ks)) ∧
    (∀ k ∈ ks, ("ndcg@" ++ toString k) ∈
      metricKeys (calculate_all_metrics docs rel ks)) ∧
    (("mrr" ∈ metricKeys (calculate_all_metrics docs rel ks)) ↔
      (∃ r, rel = some r ∧ r ≠ ∅)) ∧
    (∀ k ∈ ks,
      ((("recall@" ++ toString k) ∈ metricKeys (calculate_all_metrics docs rel ks)) ↔
        (∃ r, rel = some r ∧ r ≠ ∅)) ∧
      ((("precision@" ++ toString k) ∈ metricKeys (calculate_all_metrics docs rel ks)) ↔
        (∃ r, rel = some r ∧ r ≠ ∅))) := by
  rcases rel with _ | r
  · refine ⟨⟨?_, ?_, ?_, ?_⟩, ?_, ?_, ?_⟩
    · rw [mem_keys_calculate_none]; exact Or.inl (by simp [aggregateKeys])
    · rw [mem_keys_calculate_none]; exact Or.inl (by simp [aggregateKeys])
    · rw [mem_keys_calculate_none]; exact Or.inl (by simp [aggregateKeys])
    · rw [mem_keys_calculate_none]; exact Or.inl (by simp [aggregateKeys])
    · intro k hk
      rw [mem_keys_calculate_none]
      exact Or.inr (List.mem_flatMap.mpr ⟨k, hk, by simp⟩)
    · rw [mem_keys_calculate_none]
      apply iff_of_false
      · rintro (h | h)
        · exact absurd h (by decide)
        · exact mrr_notin_ndcg_list ks h
      · rintro ⟨r, hr, -⟩
        exact Option.noConfusion hr
    · intro k hk
      constructor
      · rw [mem_keys_calculate_none]
        apply iff_of_false
        · rintro (h | h)
          · exact key_notin_aggregate "recall@" 'r' _ rfl (by decide) (by decide)
              (by decide) _ h
          · exact key_notin_ndcg_list "recall@" 'r' _ rfl (by decide) _ ks h
        · rintro ⟨r, hr, -⟩
          exact Option.noConfusion hr
      · rw [mem_keys_calculate_none]
        apply iff_of_false
        · rintro (h | h)
          · exact key_notin_aggregate "precision@" 'p' _ rfl (by decide) (by decide)
              (by decide) _ h
          · exact key_notin_ndcg_list "precision@" 'p' _ rfl (by decide) _ ks h
        · rintro ⟨r, hr, -⟩
          exact Option.noConfusion hr
  · by_cases hr : r = ∅
    · subst hr
      have hfalse : ¬(∃ r', (some (∅ : Finset String)) = some r' ∧ r' ≠ ∅) := by
        rintro ⟨r', hr', hne⟩
        exact hne (Option.some.inj hr').symm
      refine ⟨⟨?_, ?_, ?_, ?_⟩, ?_, ?_, ?_⟩
      · rw [mem_keys_calculate_empty]; exact Or.inl (by simp [aggregateKeys])
      · rw [mem_keys_calculate_empty]; exact Or.inl (by simp [aggregateKeys])
      · rw [mem_keys_calculate_empty]; exact Or.inl (by simp [aggregateKeys])
      · rw [mem_keys_calculate_empty]; exact Or.inl (by simp [aggregateKeys])
      · intro k hk
        rw [mem_keys_calculate_empty]
        exact Or.inr (List.mem_flatMap.mpr ⟨k, hk, by simp⟩)
      · rw [mem_keys_calculate_empty]
        apply iff_of_false
        · rintro (h | h)
          · exact absurd h (by decide)
          · exact mrr_notin_ndcg_list ks h
        · exact hfalse
      · intro k hk
        constructor
        · rw [mem_keys_calculate_empty]
          apply iff_of_false
          · rintro (h | h)
            · exact key_notin_aggregate "recall@" 'r' _ rfl (by decide) (by decide)
                (by decide) _ h
            · exact key_notin_ndcg_list "recall@" 'r' _ rfl (by decide) _ ks h
          · exact hfalse
        · rw [mem_keys_calculate_empty]
          apply iff_of_false
          · rintro (h | h)
            · exact key_notin_aggregate "precision@" 'p' _ rfl (by decide) (by decide)
                (by decide) _ h
            · exact key_notin_ndcg_list "precision@" 'p' _ rfl (by decide) _ ks h
          · exact hfalse
    · have htrue : ∃ r', (some r) = some r' ∧ r' ≠ ∅ := ⟨r, rfl, hr⟩
      refine ⟨⟨?_, ?_, ?_, ?_⟩, ?_, ?_, ?_⟩
      · rw [mem_keys_calculate_nonempty docs r ks _ hr]
        exact Or.inl (by simp [aggregateKeys])
      · rw [mem_keys_calculate_nonempty docs r ks _ hr]
        exact Or.inl (by simp [aggregateKeys])
      · rw [mem_keys_calculate_nonempty docs r ks _ hr]
        exact Or.inl (by simp [aggregateKeys])
      · rw [mem_keys_calculate_nonempty docs r ks _ hr]
        exact Or.inl (by simp [aggregateKeys])
      · intro k hk
        rw [mem_keys_calculate_nonempty docs r ks _ hr]
        refine Or.inr (List.mem_cons_of_mem _ (List.mem_flatMap.mpr ⟨k, hk, by simp⟩))
      · rw [mem_keys_calculate_nonempty docs r ks _ hr]
        exact iff_of_true (Or.inr (List.mem_cons_self _ _)) htrue
      · intro k hk
        constructor
        · rw [mem_keys_calculate_nonempty docs r ks _ hr]
          exact iff_of_true (Or.inr (List.mem_cons_of_mem _
            (List.mem_flatMap.mpr ⟨k, hk, by simp⟩))) htrue
        · rw [mem_keys_calculate_nonempty docs r ks _ hr]
          exact iff_of_true (Or.inr (List.mem_cons_of_mem _
            (List.mem_flatMap.mpr ⟨k, hk, by simp⟩))) htrue

lemma lookup_append_of_ne {β : Type} (k a : String) (v : β) (h : k ≠ a) :
    ∀ m : List (String × β), (m ++ [(a, v)]).lookup k = m.lookup k := by
  intro m
  induction m with
  | nil =>
    have hbeq : (k == a) = false := by simp [beq_iff_eq, h]
    simp [List.lookup, hbeq]
  | cons p t ih =>
    rcases p with ⟨b, c⟩
    by_cases hb : k = b
    · subst hb
      simp [List.lookup]
    · have hbeq : (k == b) = false := by simp [beq_iff_eq, hb]
      simp only [List.cons_append, List.lookup, hbeq]
      exact ih

lemma lookup_map_overwrite {β : Type} (a k : String) (v : β) (h : k ≠ a) :
    ∀ m : List (String × β),
      (m.map (fun p => if p.1 = a then (a, v) else p)).lookup k = m.lookup k := by
  intro m
  induction m with
  | nil => rfl
  | cons p t ih =>
    rcases p with ⟨b, c⟩
    by_cases hba : b = a
    · subst hba
      have hmap : (((b, c) : String × β) :: t).map (fun p => if p.1 = b then (b, v) else p)
          = (b, v) :: t.map (fun p => if p.1 = b then (b, v) else p) := by
        simp
      rw [hmap]
      have hbeq : (k == b) = false := by simp [beq_iff_eq, h]
      simp only [List.lookup, hbeq]
      exact ih
    · have hif : (if (b, c).1 = a then (a, v) else (b, c)) = (b, c) := if_neg hba
      simp only [List.map_cons, hif]
      by_cases hkb : k = b
      · subst hkb
        simp [List.lookup]
      · have hbeq : (k == b) = false := by simp [beq_iff_eq, hkb]
        simp only [List.lookup, hbeq]
        exact ih

lemma lookup_dictInsert_ne {β : Type} (m : List (String × β)) (a k : String) (v : β)
    (h : k ≠ a) : (dictInsert m a v).lookup k = m.lookup k := by
  rw [dictInsert]
  by_cases hs : (m.lookup a).isSome
  · rw [if_pos hs]
    exact lookup_map_overwrite a k v h m
  · rw [if_neg hs]
    exact lookup_append_of_ne k a v h m

lemma lookup_foldl_of_not_mem {β : Type} :
    ∀ (entries : List (String × β)) (m : List (String × β)) (k : String),
      k ∉ entries.map Prod.fst →
      ((entries.foldl (fun acc p => dictInsert acc p.1 p.2) m).lookup k
        = m.lookup k) := by
  intro entries
  induction entries with
  | nil => intro m k _; rfl
  | cons p t ih =>
    intro m k hk
    simp only [List.map_cons, List.mem_cons, not_or] at hk
    rw [List.foldl_cons, ih _ k hk.2, lookup_dictInsert_ne m p.1 k p.2 hk.1]

lemma aggregate_base_foldl {β : Type} (v1 v2 v3 v4 : β) :
    ([("total_retrieved", v1), ("avg_relevance_score", v2),
      ("min_distance", v3), ("max_distance", v4)]).foldl
        (fun acc p => dictInsert acc p.1 p.2) ([] : List (String × β))
      = [("total_retrieved", v1), ("avg_relevance_score", v2),
         ("min_distance", v3), ("max_distance", v4)] := rfl

lemma lookup_mkDict_aggregate {β : Type} (v1 v2 v3 v4 : β)
    (tail : List (String × β))
    (h1 : "total_retrieved" ∉ tail.map Prod.fst)
    (h2 : "avg_relevance_score" ∉ tail.map Prod.fst)
    (h3 : "min_distance" ∉ tail.map Prod.fst)
    (h4 : "max_distance" ∉ tail.map Prod.fst) :
    (mkDict ([("total_retrieved", v1), ("avg_relevance_score", v2),
        ("min_distance", v3), ("max_distance", v4)] ++ tail)).lookup
        "total_retrieved" = some v1 ∧
    (mkDict ([("total_retrieved", v1), ("avg_relevance_score", v2),
        ("min_distance", v3), ("max_distance", v4)] ++ tail)).lookup
        "avg_relevance_score" = some v2 ∧
    (mkDict ([("total_retrieved", v1), ("avg_relevance_score", v2),
        ("min_distance", v3), ("max_distance", v4)] ++ tail)).lookup
        "min_distance" = some v3 ∧
    (mkDict ([("total_retrieved", v1), ("avg_relevance_score", v2),
        ("min_distance", v3), ("max_distance", v4)] ++ tail)).lookup
        "max_distance" = some v4 := by
  rw [mkDict, List.foldl_append, aggregate_base_foldl]
  refine ⟨?_, ?_, ?_, ?_⟩
  · rw [lookup_foldl_of_not_mem tail _ _ h1]
    rfl
  · rw [lookup_foldl_of_not_mem tail _ _ h2]
    rfl
  · rw [lookup_foldl_of_not_mem tail _ _ h3]
    rfl
  · rw [lookup_foldl_of_not_mem tail _ _ h4]
    rfl

lemma lit_notin_ndcg_keys (lit : String) (c : Char) (rl : List Char)
    (hl : lit.data = c :: rl) (hc : c ≠ 'n') (ks : List ℕ) :
    lit ∉ ks.flatMap (fun k => ["ndcg@" ++ toString k]) := by
  intro hmem
  obtain ⟨k, -, hkey⟩ := List.mem_flatMap.mp hmem
  simp only [List.mem_singleton] at hkey
  exact str_append_ne_lit "ndcg@" lit 'n' c _ _ rfl hl (fun h => hc h.symm) _ hkey.symm

lemma lit_notin_gt_keys (lit : String) (c : Char) (rl : List Char)
    (hl : lit.data = c :: rl) (h1 : c ≠ 'r') (h2 : c ≠ 'p') (h3 : c ≠ 'n')
    (ks : List ℕ) :
    lit ∉ ks.flatMap (fun k =>
      ["recall@" ++ toString k, "precision@" ++ toString k,
       "ndcg@" ++ toString k]) := by
  intro hmem
  obtain ⟨k, -, hkey⟩ := List.mem_flatMap.mp hmem
  simp only [List.mem_cons, List.mem_singleton, List.not_mem_nil, or_false] at hkey
  rcases hkey with h | h | h
  · exact str_append_ne_lit "recall@" lit 'r' c _ _ rfl hl (fun he => h1 he.symm) _ h.symm
  · exact str_append_ne_lit "precision@" lit 'p' c _ _ rfl hl (fun he => h2 he.symm) _ h.symm
  · exact str_append_ne_lit "ndcg@" lit 'n' c _ _ rfl hl (fun he => h3 he.symm) _ h.symm

lemma calculate_all_metrics_none_eq (docs : List RetrievedDoc) (ks : List ℕ) :
    calculate_all_metrics docs none ks = mkDict ([
      ("total_retrieved", ((docs.length : ℕ) : ℝ)),
      ("avg_relevance_score",
        if relevanceScoresOf docs = [] then 0
        else ((pyMean ((relevanceScoresOf docs).map Prod.snd) : ℚ) : ℝ)),
      ("min_distance", ((pyMinDist (distancesOf docs) : ℚ) : ℝ)),
      ("max_distance", ((pyMaxDist (distancesOf docs) : ℚ) : ℝ))]
      ++ ks.flatMap (fun k =>
        [("ndcg@" ++ toString k,
          ndcg_at_k (rankedIdsOf docs) (relevanceScoresOf docs) k)])) := rfl

lemma calculate_all_metrics_some_eq (docs : List RetrievedDoc) (r : Finset String)
    (ks : List ℕ) :
    calculate_all_metrics docs (some r) ks = mkDict ([
      ("total_retrieved", ((docs.length : ℕ) : ℝ)),
      ("avg_relevance_score",
        if relevanceScoresOf docs = [] then 0
        else ((pyMean ((relevanceScoresOf docs).map Prod.snd) : ℚ) : ℝ)),
      ("min_distance", ((pyMinDist (distancesOf docs) : ℚ) : ℝ)),
      ("max_distance", ((pyMaxDist (distancesOf docs) : ℚ) : ℝ))]
      ++ (if r = ∅ then
        ks.flatMap (fun k =>
          [("ndcg@" ++ toString k,
            ndcg_at_k (rankedIdsOf docs) (relevanceScoresOf docs) k)])
      else
        ("mrr", ((mean_reciprocal_rank (rankedIdsOf docs) r : ℚ) : ℝ)) ::
        ks.flatMap (fun k =>
          [("recall@" ++ toString k, ((recall_at_k (rankedIdsOf docs) r k : ℚ) : ℝ)),
           ("precision@" ++ toString k, ((precision_at_k (rankedIdsOf docs) r k : ℚ) : ℝ)),
           ("ndcg@" ++ toString k,
            ndcg_at_k (rankedIdsOf docs) (relevanceScoresOf docs) k)]))) := rfl

lemma calculate_all_metrics_aggregate_values (docs : List RetrievedDoc)
    (rel : Option (Finset String)) (ks : List ℕ) :
    (calculate_all_metrics docs rel ks).lookup "total_retrieved"
        = some ((docs.length : ℝ)) ∧
    (calculate_all_metrics docs rel ks).lookup "avg_relevance_score"
        = some (if relevanceScoresOf docs = [] then 0
                else ((pyMean ((relevanceScoresOf docs).map Prod.snd) : ℚ) : ℝ)) ∧
    (calculate_all_metrics docs rel ks).lookup "min_distance"
        = some ((pyMinDist (distancesOf docs) : ℚ) : ℝ) ∧
    (calculate_all_metrics docs rel ks).lookup "max_distance"
        = some ((pyMaxDist (distancesOf docs) : ℚ) : ℝ) := by
  have hndcg : ∀ (key : String) (c : Char) (rl : List Char), key.data = c :: rl →
      c ≠ 'n' →
      key ∉ (ks.flatMap (fun k =>
        [("ndcg@" ++ toString k,
          ndcg_at_k (rankedIdsOf docs) (relevanceScoresOf docs) k)])).map Prod.fst := by
    intro key c rl hl hc hmem
    rw [List.map_flatMap] at hmem
    refine lit_notin_ndcg_keys key c rl hl hc ks ?_
    simpa using hmem
  rcases rel with _ | r
  · rw [calculate_all_metrics_none_eq]
    exact lookup_mkDict_aggregate _ _ _ _ _
      (hndcg _ 't' _ rfl (by decide)) (hndcg _ 'a' _ rfl (by decide))
      (hndcg _ 'm' _ rfl (by decide)) (hndcg _ 'm' _ rfl (by decide))
  · rw [calculate_all_metrics_some_eq]
    by_cases hr : r = ∅
    · rw [if_pos hr]
      exact lookup_mkDict_aggregate _ _ _ _ _
        (hndcg _ 't' _ rfl (by decide)) (hndcg _ 'a' _ rfl (by decide))
        (hndcg _ 'm' _ rfl (by decide)) (hndcg _ 'm' _ rfl (by decide))
    · rw [if_neg hr]
      have hgt : ∀ (key : String) (c : Char) (rl : List Char), key.data = c :: rl →
          key ≠ "mrr" → c ≠ 'r' → c ≠ 'p' → c ≠ 'n' →
          key ∉ (("mrr", ((mean_reciprocal_rank (rankedIdsOf docs) r : ℚ) : ℝ)) ::
            ks.flatMap (fun k =>
              [("recall@" ++ toString k,
                ((recall_at_k (rankedIdsOf docs) r k : ℚ) : ℝ)),
               ("precision@" ++ toString k,
                ((precision_at_k (rankedIdsOf docs) r k : ℚ) : ℝ)),
               ("ndcg@" ++ toString k,
                ndcg_at_k (rankedIdsOf docs) (relevanceScoresOf docs) k)])).map
              Prod.fst := by
        intro key c rl hl hmrr h1 h2 h3 hmem
        rw [List.map_cons, List.map_flatMap] at hmem
        rcases List.mem_cons.mp hmem with h | h
        · exact hmrr h
        · refine lit_notin_gt_keys key c rl hl h1 h2 h3 ks ?_
          simpa using h
      exact lookup_mkDict_aggregate _ _ _ _ _
        (hgt _ 't' _ rfl (by decide) (by decide) (by decide) (by decide))
        (hgt _ 'a' _ rfl (by decide) (by decide) (by decide) (by decide))
        (hgt _ 'm' _ rfl (by decide) (by decide) (by decide) (by decide))
        (hgt _ 'm' _ rfl (by decide) (by decide) (by decide) (by decide))

lemma mem_dictInsert_sub {β : Type} (m : List (String × β)) (k : String) (v : β)
    (q : String × β) : q ∈ dictInsert m k v → q ∈ m ∨ q = (k, v) := by
  rw [dictInsert]
  by_cases hs : (m.lookup k).isSome
  · rw [if_pos hs]
    intro hq
    obtain ⟨p, hp, hpq⟩ := List.mem_map.mp hq
    by_cases hpk : p.1 = k
    · rw [if_pos hpk] at hpq
      exact Or.inr hpq.symm
    · rw [if_neg hpk] at hpq
      exact Or.inl (hpq ▸ hp)
  · rw [if_neg hs]
    intro hq
    rcases List.mem_append.mp hq with h | h
    · exact Or.inl h
    · exact Or.inr (List.mem_singleton.mp h)

lemma mem_foldl_dictInsert_sub {β : Type} :
    ∀ (l : List (String × β)) (m : List (String × β)) (q : String × β),
      q ∈ l.foldl (fun acc p => dictInsert acc p.1 p.2) m → q ∈ m ∨ q ∈ l := by
  intro l
  induction l with
  | nil => intro m q h; exact Or.inl h
  | cons p t ih =>
    intro m q h
    rw [List.foldl_cons] at h
    rcases ih _ q h with h₁ | h₁
    · rcases mem_dictInsert_sub m p.1 p.2 q h₁ with h₂ | h₂
      · exact Or.inl h₂
      · right
        rw [h₂]
        exact List.mem_cons_self _ _
    · exact Or.inr (List.mem_cons_of_mem _ h₁)

lemma relevanceScoresOf_mem_spec (docs : List RetrievedDoc) :
    ∀ p ∈ relevanceScoresOf docs, ∃ i, ∃ _h : i < docs.length,
      p.1 = (rankedIdsOf docs).getD i "" ∧
      p.2 = 1 - (docs.getD i default).distance.getD 1 := by
  intro p hp
  rw [relevanceScoresOf, dictOfPairs] at hp
  have hzip : p ∈ (rankedIdsOf docs).zip ((distancesOf docs).map (fun d => 1 - d)) := by
    rcases mem_foldl_dictInsert_sub _ [] p hp with h | h
    · simp at h
    · exact h
  obtain ⟨i, hi, hieq⟩ := List.mem_iff_getElem.mp hzip
  have hlen1 : (rankedIdsOf docs).length = docs.length := by
    simp [rankedIdsOf]
  have hlen2 : ((distancesOf docs).map (fun d => 1 - d)).length = docs.length := by
    simp [distancesOf]
  have hi1 : i < (rankedIdsOf docs).length := by
    rw [List.length_zip, hlen1, hlen2] at hi
    omega
  have hi2 : i < ((distancesOf docs).map (fun d => 1 - d)).length := by
    rw [List.length_zip, hlen1, hlen2] at hi
    omega
  have hidocs : i < docs.length := by
    rw [hlen1] at hi1
    exact hi1
  rw [List.getElem_zip] at hieq
  refine ⟨i, hidocs, ?_, ?_⟩
  · rw [← hieq, List.getD_eq_getElem _ "" hi1]
  · rw [← hieq, List.getD_eq_getElem docs default hidocs]
    simp only [List.getElem_map, distancesOf]

lemma rankedId_mem_relevanceScores (docs : List RetrievedDoc) :
    ∀ i, i < docs.length →
      (rankedIdsOf docs).getD i "" ∈ (relevanceScoresOf docs).map Prod.fst := by
  intro i hi
  have hlen1 : (rankedIdsOf docs).length = docs.length := by
    simp [rankedIdsOf]
  have hlen2 : ((distancesOf docs).map (fun d => 1 - d)).length = docs.length := by
    simp [distancesOf]
  have hi1 : i < (rankedIdsOf docs).length := by rw [hlen1]; exact hi
  have hizip : i <
      ((rankedIdsOf docs).zip ((distancesOf docs).map (fun d => 1 - d))).length := by
    rw [List.length_zip, hlen1, hlen2]
    omega
  have hdp : relevanceScoresOf docs =
      mkDict ((rankedIdsOf docs).zip ((distancesOf docs).map (fun d => 1 - d))) := rfl
  rw [hdp]
  apply (mem_keys_mkDict _ _).mpr
  apply List.mem_map.mpr
  refine ⟨((rankedIdsOf docs).zip
      ((distancesOf docs).map (fun d => 1 - d))).getD i ("", 0), ?_, ?_⟩
  · rw [List.getD_eq_getElem _ _ hizip]
    exact List.getElem_mem hizip
  · rw [List.getD_eq_getElem _ _ hizip, List.getElem_zip,
      List.getD_eq_getElem _ "" hi1]

/-- C5 (amended): `calculate_all_metrics` derives the per-id relevance
score as `1 - distance` per document (missing distance defaulting to 1,
duplicate ids resolved last-wins as a Python dict comprehension does);
it always reports `total_retrieved` holding the retrieved count,
`avg_relevance_score` holding the mean of the relevance values (0 when
there are none), and `min_distance` / `max_distance` holding the
minimum / maximum distance (1 when no documents), plus an `ndcg@k`
entry per requested `k`; and it reports `mrr`, `recall@k` and
`precision@k` exactly when a *non-empty* relevant-id set is supplied
(Python's `if relevant_doc_ids:` treats a supplied empty set like
`None`). -/
theorem calculate_all_metrics_reported_keys
    (docs : List RetrievedDoc) (rel : Option (Finset String)) (ks : List ℕ) :
    ((calculate_all_metrics docs rel ks).lookup "total_retrieved"
        = some ((docs.length : ℝ)) ∧
     (calculate_all_metrics docs rel ks).lookup "avg_relevance_score"
        = some (if relevanceScoresOf docs = [] then 0
                else ((pyMean ((relevanceScoresOf docs).map Prod.snd) : ℚ) : ℝ)) ∧
     (calculate_all_metrics docs rel ks).lookup "min_distance"
        = some ((pyMinDist (distancesOf docs) : ℚ) : ℝ) ∧
     (calculate_all_metrics docs rel ks).lookup "max_distance"
        = some ((pyMaxDist (distancesOf docs) : ℚ) : ℝ)) ∧
    ((∀ p ∈ relevanceScoresOf docs, ∃ i, ∃ _h : i < docs.length,
        p.1 = (rankedIdsOf docs).getD i "" ∧
        p.2 = 1 - (docs.getD i default).distance.getD 1) ∧
     (∀ i, i < docs.length →
        (rankedIdsOf docs).getD i "" ∈ (relevanceScoresOf docs).map Prod.fst)) ∧
    (∀ k ∈ ks, ("ndcg@" ++ toString k) ∈
      metricKeys (calculate_all_metrics docs rel ks)) ∧
    (("mrr" ∈ metricKeys (calculate_all_metrics docs rel ks)) ↔
      (∃ r, rel = some r ∧ r ≠ ∅)) ∧
    (∀ k ∈ ks,
      ((("recall@" ++ toString k) ∈ metricKeys (calculate_all_metrics docs rel ks)) ↔
        (∃ r, rel = some r ∧ r ≠ ∅)) ∧
      ((("precision@" ++ toString k) ∈ metricKeys (calculate_all_metrics docs rel ks)) ↔
        (∃ r, rel = some r ∧ r ≠ ∅))) :=
  ⟨calculate_all_metrics_aggregate_values docs rel ks,
   ⟨relevanceScoresOf_mem_spec docs, rankedId_mem_relevanceScores docs⟩,
   (calculate_all_metrics_keys_presence docs rel ks).2.1,
   (calculate_all_metrics_keys_presence docs rel ks).2.2.1,
   (calculate_all_metrics_keys_presence docs rel ks).2.2.2⟩

/-- C5 counterexample: a relevant-id set *is supplied* (the empty set),
yet `calculate_all_metrics` omits the `mrr` entry, contradicting
"includes MRR exactly when a relevant-id set is supplied". -/
theorem calculate_all_metrics_empty_set_counterexample :
    "mrr" ∉ metricKeys (calculate_all_metrics [] (some ∅) [5]) := by
  rw [mem_keys_calculate_empty]
  rintro (hbase | htail)
  · exact absurd hbase (by decide)
  · exact mrr_notin_ndcg_list [5] htail

/-- Witness for C5 (amended) at a concrete input. -/
theorem calculate_all_metrics_reported_keys_witness :
    (calculate_all_metrics [] (some {"x"}) [3]).lookup "total_retrieved"
        = some ((List.length ([] : List RetrievedDoc) : ℝ)) ∧
    ("ndcg@" ++ toString 3) ∈
      metricKeys (calculate_all_metrics [] (some {"x"}) [3]) ∧
    ("mrr" ∈ metricKeys (calculate_all_metrics [] (some {"x"}) [3]) ↔
      (∃ r, (some {"x"} : Option (Finset String)) = some r ∧ r ≠ ∅)) :=
  ⟨(calculate_all_metrics_reported_keys [] (some {"x"}) [3]).1.1,
   (calculate_all_metrics_reported_keys [] (some {"x"}) [3]).2.2.1 3 (by simp),
   (calculate_all_metrics_reported_keys [] (some {"x"}) [3]).2.2.2.1⟩

/-! ### C10: ranked ids come from `case_name`, never from an id field -/

lemma rankedIdsOf_eq (docs : List RetrievedDoc) :
    rankedIdsOf docs = (List.range docs.length).map
      (fun i => ((docs.getD i default).case_name).getD (toString i)) := by
  apply List.ext_getElem
  · simp [rankedIdsOf]
  · intro i h1 h2
    have hi : i < docs.length := by simpa [rankedIdsOf] using h1
    simp only [rankedIdsOf, List.getElem_map, List.getElem_enum, List.getElem_range]
    rw [List.getD_eq_getElem docs default hi]

lemma rankedIdsOf_map_idField (docs : List RetrievedDoc)
    (f : RetrievedDoc → Option String) :
    rankedIdsOf (docs.map (fun d => { d with idField := f d })) = rankedIdsOf docs := by
  apply List.ext_getElem
  · simp [rankedIdsOf]
  · intro i h1 h2
    simp [rankedIdsOf, List.getElem_enum]

lemma distancesOf_map_idField (docs : List RetrievedDoc)
    (f : RetrievedDoc → Option String) :
    distancesOf (docs.map (fun d => { d with idField := f d })) = distancesOf docs := by
  rw [distancesOf, distancesOf, List.map_map]
  apply List.map_congr_left
  intro d _
  rfl

lemma relevanceScoresOf_map_idField (docs : List RetrievedDoc)
    (f : RetrievedDoc → Option String) :
    relevanceScoresOf (docs.map (fun d => { d with idField := f d })) =
      relevanceScoresOf docs := by
  rw [relevanceScoresOf, relevanceScoresOf, rankedIdsOf_map_idField,
    distancesOf_map_idField]

/-- C10: the ranked id of each retrieved document is its `case_name`
metadata (or its 0-based position rendered as a string when absent) —
never the document's own id field, as changing every id field leaves
`calculate_all_metrics` unchanged; and a missing `distance` defaults
to 1 (relevance 0). -/
theorem calculate_all_metrics_uses_case_name :
    (∀ (docs : List RetrievedDoc),
       rankedIdsOf docs = (List.range docs.length).map
         (fun i => ((docs.getD i default).case_name).getD (toString i))) ∧
    (∀ (docs : List RetrievedDoc) (i : ℕ), i < docs.length →
       (docs.getD i default).distance = none → (distancesOf docs).getD i 0 = 1) ∧
    (∀ (docs : List RetrievedDoc) (f : RetrievedDoc → Option String)
       (rel : Option (Finset String)) (ks : List ℕ),
       calculate_all_metrics (docs.map (fun d => { d with idField := f d })) rel ks =
         calculate_all_metrics docs rel ks) := by
  refine ⟨rankedIdsOf_eq, ?_, ?_⟩
  · intro docs i hi hnone
    rw [List.getD_eq_getElem docs default hi] at hnone
    have hlen : i < (distancesOf docs).length := by simpa [distancesOf] using hi
    rw [List.getD_eq_getElem _ 0 hlen]
    simp [distancesOf, hnone]
  · intro docs f rel ks
    simp only [calculate_all_metrics, rankedIdsOf_map_idField,
      distancesOf_map_idField, relevanceScoresOf_map_idField, List.length_map]

/-- Witness for C10 at a concrete input: a document carrying only an id
field gets ranked id `"0"` and default distance 1. -/
theorem calculate_all_metrics_uses_case_name_witness :
    (distancesOf [⟨none, none, some "id7"⟩]).getD 0 0 = 1 :=
  calculate_all_metrics_uses_case_name.2.1 [⟨none, none, some "id7"⟩] 0
    (by norm_num) rfl

/-! ### C9: degraded search -/

/-- C9: if embedding the query fails, `search` returns the text-based
search over the same `where` filter, with the degradation logged; if
the text search also fails it returns the empty result set; and it
always returns a result — no failure path raises. -/
theorem search_degraded_policy :
    (∀ (be : SearchBackend) (q : String) (j : Option String) (n : ℕ)
       (r : QueryResult),
       (∃ e, be.embedQuery q = .error e) →
       be.textQuery q (mkWhereFilter j) n = .ok r →
       search be q j n = (r, [searchDegradedLog])) ∧
    (∀ (be : SearchBackend) (q : String) (j : Option String) (n : ℕ),
       (∃ e, be.embedQuery q = .error e) →
       be.textQuery q (mkWhereFilter j) n = .error () →
       search be q j n = (emptyQueryResult, [searchDegradedLog, searchTextFailedLog])) ∧
    (∀ (be : SearchBackend) (q : String) (j : Option String) (n : ℕ),
       ∃ (r : QueryResult) (logs : List String), search be q j n = (r, logs)) := by
  refine ⟨?_, ?_, ?_⟩
  · intro be q j n r ⟨e, he⟩ htext
    simp [search, he, htext]
  · intro be q j n ⟨e, he⟩ htext
    simp [search, he, htext]
  · intro be q j n
    exact ⟨(search be q j n).1, (search be q j n).2, rfl⟩

/-- Witness for C9 at a concrete backend whose embedding always fails
and whose text search succeeds. -/
theorem search_degraded_policy_witness :
    search ⟨fun _ => .error .mistralNotConfigured, fun _ _ _ => .error (),
        fun _ _ _ => .ok ⟨[["doc"]], [[]], [[0]]⟩⟩ "q" (some "state") 5 =
      (⟨[["doc"]], [[]], [[0]]⟩, [searchDegradedLog]) :=
  search_degraded_policy.1
    ⟨fun _ => .error .mistralNotConfigured, fun _ _ _ => .error (),
     fun _ _ _ => .ok ⟨[["doc"]], [[]], [[0]]⟩⟩ "q" (some "state") 5
    ⟨[["doc"]], [[]], [[0]]⟩ ⟨.mistralNotConfigured, rfl⟩ rfl

/-! ### C1: NDCG bounds -/

lemma lookup_mem {β : Type} (k : String) :
    ∀ (m : List (String × β)) (b : β), m.lookup k = some b → (k, b) ∈ m := by
  intro m
  induction m with
  | nil => intro b h; simp [List.lookup] at h
  | cons p t ih =>
    intro b h
    rcases p with ⟨a, c⟩
    rw [List.lookup] at h
    by_cases hk : k = a
    · subst hk
      simp only [List.lookup, beq_self_eq_true] at h
      rw [← Option.some.inj h]
      exact List.mem_cons_self _ _
    · have hbeq : (k == a) = false := by simp [beq_iff_eq, hk]
      rw [hbeq] at h
      exact List.mem_cons_of_mem _ (ih b h)

lemma lookupScore_nonneg (scores : List (String × ℚ)) (d : String)
    (hnn : ∀ p ∈ scores, 0 ≤ p.2) : 0 ≤ lookupScore scores d := by
  rw [lookupScore]
  cases h : scores.lookup d with
  | none => simp
  | some q =>
    simp only [Option.getD_some]
    exact hnn (d, q) (lookup_mem d scores q h)

lemma lookupScore_eq_zero_of_not_mem (scores : List (String × ℚ)) (d : String)
    (h : d ∉ scores.map Prod.fst) : lookupScore scores d = 0 := by
  rw [lookupScore]
  have hnone : scores.lookup d = none := by
    rw [← Option.not_isSome_iff_eq_none, lookup_isSome_iff]
    exact h
  rw [hnone, Option.getD_none]

lemma valAt_nonneg (scores : List (String × ℚ)) (l : List String) (j : ℕ)
    (hnn : ∀ p ∈ scores, 0 ≤ p.2) : 0 ≤ valAt scores l j := by
  rw [valAt]
  cases l[j]? with
  | none => exact le_refl 0
  | some d => exact Rat.cast_nonneg.mpr (lookupScore_nonneg scores d hnn)

lemma logb_disc_pos (j : ℕ) : 0 < Real.logb 2 ((j : ℝ) + 2) := by
  apply Real.logb_pos one_lt_two
  have : (0 : ℝ) ≤ (j : ℝ) := Nat.cast_nonneg j
  linarith

lemma wDisc_pos (j : ℕ) : 0 < wDisc j := inv_pos.mpr (logb_disc_pos j)

lemma wDisc_antitone {i j : ℕ} (h : i ≤ j) : wDisc j ≤ wDisc i := by
  rw [wDisc, wDisc]
  apply inv_anti₀ (logb_disc_pos i)
  apply Real.logb_le_logb_of_le one_lt_two (by positivity)
  have : (i : ℝ) ≤ (j : ℝ) := Nat.cast_le.mpr h
  linarith

lemma dcg_eq_sum_valAt (ids : List String) (scores : List (String × ℚ)) (k : ℕ) :
    dcg ids scores k = ∑ j ∈ Finset.range k, valAt scores ids j * wDisc j := by
  rw [dcg, dcgAux_eq_sum, List.length_take]
  have hcongr : ∀ j ∈ Finset.range (min k ids.length),
      (lookupScore scores ((ids.take k).getD j "") : ℝ) /
        Real.logb 2 (((1 : ℕ) : ℝ) + (j : ℝ) + 1)
      = valAt scores ids j * wDisc j := by
    intro j hj
    rw [Finset.mem_range] at hj
    have hjk : j < k := lt_of_lt_of_le hj (min_le_left _ _)
    have hjl : j < ids.length := lt_of_lt_of_le hj (min_le_right _ _)
    have hget : (ids.take k).getD j "" = ids[j] := by
      rw [List.getD_eq_getElem?_getD, List.getElem?_take, if_pos hjk,
        List.getElem?_eq_getElem hjl, Option.getD_some]
    have hval : valAt scores ids j = (lookupScore scores (ids[j]) : ℝ) := by
      rw [valAt, List.getElem?_eq_getElem hjl]
    have harg : (((1 : ℕ) : ℝ) + (j : ℝ) + 1) = ((j : ℝ) + 2) := by
      push_cast
      ring
    rw [hget, hval, harg, wDisc, div_eq_mul_inv]
  rw [Finset.sum_congr rfl hcongr]
  apply Finset.sum_subset (Finset.range_subset.mpr (min_le_left k ids.length))
  intro j hjk hjmin
  rw [Finset.mem_range] at hjk
  rw [Finset.mem_range, not_lt] at hjmin
  have hjl : ids.length ≤ j := by omega
  rw [valAt, List.getElem?_eq_none hjl, zero_mul]

lemma dcg_nonneg (l : List String) (scores : List (String × ℚ)) (k : ℕ)
    (hnn : ∀ p ∈ scores, 0 ≤ p.2) : 0 ≤ dcg l scores k := by
  rw [dcg_eq_sum_valAt]
  apply Finset.sum_nonneg
  intro j _
  exact mul_nonneg (valAt_nonneg scores l j hnn) (wDisc_pos j).le

lemma sVal_antitone (scores : List (String × ℚ)) (hnn : ∀ p ∈ scores, 0 ≤ p.2)
    {i j : ℕ} (h : i ≤ j) : sVal scores j ≤ sVal scores i := by
  have hsorted : (idealOrder scores).Pairwise
      (fun a b => descByScore scores a b = true) := by
    rw [idealOrder]
    apply List.sorted_mergeSort
    · intro a b c hab hbc
      simp only [descByScore, decide_eq_true_eq] at hab hbc ⊢
      exact le_trans hbc hab
    · intro a b
      simp only [descByScore, Bool.or_eq_true, decide_eq_true_eq]
      exact le_total (lookupScore scores b) (lookupScore scores a)
  by_cases hjn : j < (idealOrder scores).length
  · have hin : i < (idealOrder scores).length := lt_of_le_of_lt h hjn
    rw [sVal, sVal, valAt, valAt, List.getElem?_eq_getElem hjn,
      List.getElem?_eq_getElem hin]
    rcases eq_or_lt_of_le h with rfl | hlt
    · exact le_refl _
    · have := (List.pairwise_iff_getElem.mp hsorted) i j hin hjn hlt
      simp only [descByScore, decide_eq_true_eq] at this
      exact Rat.cast_le.mpr this
  · rw [not_lt] at hjn
    rw [sVal, valAt, List.getElem?_eq_none hjn]
    exact valAt_nonneg scores _ i hnn

lemma sum_finset_le_sum_range (f : ℕ → ℝ) (hf : ∀ i j, i ≤ j → f j ≤ f i) :
    ∀ (n : ℕ) (A : Finset ℕ), A.card = n →
      ∑ i ∈ A, f i ≤ ∑ i ∈ Finset.range n, f i := by
  intro n
  induction n with
  | zero =>
    intro A hA
    rw [Finset.card_eq_zero] at hA
    subst hA
    simp
  | succ m ih =>
    intro A hA
    have hne : A.Nonempty := by
      rw [← Finset.card_pos, hA]
      omega
    have hmem := A.max'_mem hne
    have hcard : (A.erase (A.max' hne)).card = m := by
      rw [Finset.card_erase_of_mem hmem, hA]
      omega
    have hsub : A ⊆ Finset.range (A.max' hne + 1) := by
      intro x hx
      rw [Finset.mem_range]
      exact Nat.lt_succ_of_le (A.le_max' x hx)
    have hma : m ≤ A.max' hne := by
      have := Finset.card_le_card hsub
      rw [hA, Finset.card_range] at this
      omega
    calc ∑ i ∈ A, f i
        = ∑ i ∈ A.erase (A.max' hne), f i + f (A.max' hne) :=
          (Finset.sum_erase_add A f hmem).symm
      _ ≤ ∑ i ∈ Finset.range m, f i + f (A.max' hne) :=
          add_le_add_right (ih _ hcard) _
      _ ≤ ∑ i ∈ Finset.range m, f i + f m :=
          add_le_add_left (hf m (A.max' hne) hma) _
      _ = ∑ i ∈ Finset.range (m + 1), f i := (Finset.sum_range_succ f m).symm

lemma abel_sum_mul_le (u v : ℕ → ℝ) :
    ∀ (k : ℕ) (w : ℕ → ℝ),
      (∀ i j, i ≤ j → j < k → w j ≤ w i) → (∀ j, j < k → 0 ≤ w j) →
      (∀ t, t < k → ∑ j ∈ Finset.range (t + 1), u j ≤ ∑ j ∈ Finset.range (t + 1), v j) →
      ∑ j ∈ Finset.range k, u j * w j ≤ ∑ j ∈ Finset.range k, v j * w j := by
  intro k
  induction k with
  | zero => intro w _ _ _; simp
  | succ m ih =>
    intro w hmono hpos hP
    have expand : ∀ (u : ℕ → ℝ), ∑ j ∈ Finset.range (m + 1), u j * w j
        = (∑ j ∈ Finset.range m, u j * (w j - w m)) +
          (∑ j ∈ Finset.range (m + 1), u j) * w m := by
      intro u
      have hsub : ∑ j ∈ Finset.range m, u j * (w j - w m)
          = ∑ j ∈ Finset.range m, u j * w j - ∑ j ∈ Finset.range m, u j * w m := by
        rw [← Finset.sum_sub_distrib]
        apply Finset.sum_congr rfl
        intro j _
        ring
      rw [hsub, Finset.sum_range_succ (fun j => u j * w j), Finset.sum_range_succ u,
        add_mul, Finset.sum_mul]
      ring
    rw [expand u, expand v]
    have h1 : ∑ j ∈ Finset.range m, u j * (w j - w m)
        ≤ ∑ j ∈ Finset.range m, v j * (w j - w m) := by
      apply ih
      · intro i j hij hj
        have := hmono i j hij (by omega)
        linarith
      · intro j hj
        have := hmono j m (by omega) (by omega)
        linarith
      · intro t ht
        exact hP t (by omega)
    have h2 : (∑ j ∈ Finset.range (m + 1), u j) * w m
        ≤ (∑ j ∈ Finset.range (m + 1), v j) * w m :=
      mul_le_mul_of_nonneg_right (hP m (by omega)) (hpos m (by omega))
    linarith

lemma dcg_le_ideal (ids : List String) (scores : List (String × ℚ)) (k : ℕ)
    (hids : ids.Nodup) (hnn : ∀ p ∈ scores, 0 ≤ p.2) :
    dcg ids scores k ≤ dcg (idealOrder scores) scores k := by
  classical
  obtain ⟨φ, hφval, hφinj⟩ : ∃ φ : ℕ → ℕ,
      (∀ j, valAt scores ids j = sVal scores (φ j)) ∧ Function.Injective φ := by
    refine ⟨fun j => (ids[j]?).elim ((idealOrder scores).length + j)
      (fun d => if d ∈ idealOrder scores then (idealOrder scores).indexOf d
                else (idealOrder scores).length + j), ?_, ?_⟩
    · intro j
      cases hj : ids[j]? with
      | none =>
        simp only [hj, Option.elim, sVal]
        simp only [valAt, hj, List.getElem?_eq_none (Nat.le_add_right _ j)]
      | some d =>
        simp only [hj, Option.elim]
        by_cases hd : d ∈ idealOrder scores
        · rw [if_pos hd]
          have hidx : List.indexOf d (idealOrder scores) < (idealOrder scores).length :=
            List.indexOf_lt_length.mpr hd
          have hgot : (idealOrder scores)[List.indexOf d (idealOrder scores)]?
              = some d := by
            rw [List.getElem?_eq_getElem hidx, List.getElem_indexOf hidx]
          simp only [sVal]
          simp only [valAt, hj, hgot]
        · rw [if_neg hd]
          have hdkeys : d ∉ scores.map Prod.fst := by
            intro hmem
            exact hd (((List.mergeSort_perm (scores.map Prod.fst)
              (descByScore scores)).mem_iff).mpr hmem)
          simp only [sVal]
          simp only [valAt, hj, List.getElem?_eq_none (Nat.le_add_right _ j),
            lookupScore_eq_zero_of_not_mem scores d hdkeys]
          simp
    · intro j₁ j₂ heq
      cases hj₁ : ids[j₁]? with
      | none =>
        cases hj₂ : ids[j₂]? with
        | none =>
          simp only [hj₁, hj₂, Option.elim] at heq
          omega
        | some d₂ =>
          simp only [hj₁, hj₂, Option.elim] at heq
          by_cases hd₂ : d₂ ∈ idealOrder scores
          · rw [if_pos hd₂] at heq
            have := List.indexOf_lt_length.mpr hd₂
            omega
          · rw [if_neg hd₂] at heq
            omega
      | some d₁ =>
        cases hj₂ : ids[j₂]? with
        | none =>
          simp only [hj₁, hj₂, Option.elim] at heq
          by_cases hd₁ : d₁ ∈ idealOrder scores
          · rw [if_pos hd₁] at heq
            have := List.indexOf_lt_length.mpr hd₁
            omega
          · rw [if_neg hd₁] at heq
            omega
        | some d₂ =>
          simp only [hj₁, hj₂, Option.elim] at heq
          by_cases hd₁ : d₁ ∈ idealOrder scores
          · by_cases hd₂ : d₂ ∈ idealOrder scores
            · rw [if_pos hd₁, if_pos hd₂] at heq
              have hidx₁ := List.indexOf_lt_length.mpr hd₁
              have hidx₂ := List.indexOf_lt_length.mpr hd₂
              have hd12 : d₁ = d₂ := by
                have o₁ : (idealOrder scores)[List.indexOf d₁ (idealOrder scores)]?
                    = some d₁ := by
                  rw [List.getElem?_eq_getElem hidx₁, List.getElem_indexOf hidx₁]
                have o₂ : (idealOrder scores)[List.indexOf d₂ (idealOrder scores)]?
                    = some d₂ := by
                  rw [List.getElem?_eq_getElem hidx₂, List.getElem_indexOf hidx₂]
                rw [heq, o₂] at o₁
                exact (Option.some.inj o₁).symm
              obtain ⟨hl₁, he₁⟩ := List.getElem?_eq_some_iff.mp hj₁
              obtain ⟨hl₂, he₂⟩ := List.getElem?_eq_some_iff.mp hj₂
              exact (hids.getElem_inj_iff).mp (by rw [he₁, he₂, hd12])
            · rw [if_pos hd₁, if_neg hd₂] at heq
              have := List.indexOf_lt_length.mpr hd₁
              omega
          · by_cases hd₂ : d₂ ∈ idealOrder scores
            · rw [if_neg hd₁, if_pos hd₂] at heq
              have := List.indexOf_lt_length.mpr hd₂
              omega
            · rw [if_neg hd₁, if_neg hd₂] at heq
              omega
  rw [dcg_eq_sum_valAt ids scores k, dcg_eq_sum_valAt (idealOrder scores) scores k]
  have hP : ∀ t, t < k →
      ∑ j ∈ Finset.range (t + 1), valAt scores ids j ≤
        ∑ j ∈ Finset.range (t + 1), valAt scores (idealOrder scores) j := by
    intro t _
    have hrw : ∀ j ∈ Finset.range (t + 1),
        valAt scores ids j = sVal scores (φ j) := fun j _ => hφval j
    rw [Finset.sum_congr rfl hrw]
    have himg : ∑ j ∈ Finset.range (t + 1), sVal scores (φ j)
        = ∑ i ∈ (Finset.range (t + 1)).image φ, sVal scores i :=
      (Finset.sum_image (fun x _ y _ h => hφinj h)).symm
    rw [himg]
    have hcard : ((Finset.range (t + 1)).image φ).card = t + 1 := by
      rw [Finset.card_image_of_injOn hφinj.injOn, Finset.card_range]
    exact sum_finset_le_sum_range (sVal scores)
      (fun i j hij => sVal_antitone scores hnn hij) (t + 1) _ hcard
  exact abel_sum_mul_le (fun j => valAt scores ids j)
    (fun j => valAt scores (idealOrder scores) j) k wDisc
    (fun i j hij _ => wDisc_antitone hij) (fun j _ => (wDisc_pos j).le) hP

/-- C1 (amended): for a duplicate-free ranked id list and non-negative
relevance scores, `ndcg_at_k` lies in `[0, 1]`, and it equals 1 whenever
`ids[:k]` coincides with the ideal descending-relevance order truncated
at `k` and the ideal DCG at `k` is non-zero. -/
theorem ndcg_at_k_bounds (ids : List String) (scores : List (String × ℚ)) (k : ℕ)
    (hids : ids.Nodup) (hnn : ∀ p ∈ scores, 0 ≤ p.2) :
    0 ≤ ndcg_at_k ids scores k ∧ ndcg_at_k ids scores k ≤ 1 ∧
      (ids.take k = (idealOrder scores).take k →
        dcg (idealOrder scores) scores k ≠ 0 → ndcg_at_k ids scores k = 1) := by
  by_cases hs : scores = []
  · subst hs
    refine ⟨le_refl 0 |>.trans (by rw [ndcg_at_k]; simp), by rw [ndcg_at_k]; simp, ?_⟩
    intro _ hzero
    exfalso
    apply hzero
    have : idealOrder ([] : List (String × ℚ)) = [] := by simp [idealOrder]
    rw [this, dcg]
    simp [dcgAux]
  · simp only [ndcg_at_k, if_neg hs]
    by_cases hzero : dcg (idealOrder scores) scores k = 0
    · rw [if_pos hzero]
      exact ⟨le_refl 0, zero_le_one, fun _ h => absurd hzero h⟩
    · rw [if_neg hzero]
      have hpos : 0 < dcg (idealOrder scores) scores k :=
        lt_of_le_of_ne (dcg_nonneg _ scores k hnn) (Ne.symm hzero)
      refine ⟨div_nonneg (dcg_nonneg ids scores k hnn) hpos.le,
        (div_le_one hpos).mpr (dcg_le_ideal ids scores k hids hnn), ?_⟩
      intro htake _
      have heq : dcg ids scores k = dcg (idealOrder scores) scores k := by
        rw [dcg, htake, ← dcg]
      rw [heq]
      exact div_self hzero

/-- Witness for C1 (amended) at the spec's own scenario: ids
`["x","y"]`, scores `x ↦ 1, y ↦ 1/2`, `k = 2`. -/
theorem ndcg_at_k_bounds_witness :
    0 ≤ ndcg_at_k ["x", "y"] [("x", 1), ("y", 1/2)] 2 ∧
    ndcg_at_k ["x", "y"] [("x", 1), ("y", 1/2)] 2 ≤ 1 ∧
    ((["x", "y"].take 2) = (idealOrder [("x", 1), ("y", 1/2)]).take 2 →
      dcg (idealOrder [("x", 1), ("y", 1/2)]) [("x", 1), ("y", 1/2)] 2 ≠ 0 →
      ndcg_at_k ["x", "y"] [("x", 1), ("y", 1/2)] 2 = 1) :=
  ndcg_at_k_bounds ["x", "y"] [("x", 1), ("y", 1/2)] 2 (by decide)
    (by
      intro p hp
      simp only [List.mem_cons, List.not_mem_nil, or_false] at hp
      rcases hp with rfl | rfl
      · norm_num
      · norm_num)

/-- C1 counterexample: with the *duplicated* ranked list `["a","a"]`
and the non-negative score map `a ↦ 1`, NDCG@2 exceeds 1 — the
duplicate earns the same gain twice while the ideal order counts it
once, refuting the claim for arbitrary ranked id lists. -/
theorem ndcg_at_k_gt_one_on_duplicates :
    (∀ p ∈ [("a", (1 : ℚ))], 0 ≤ p.2) ∧
    1 < ndcg_at_k ["a", "a"] [("a", 1)] 2 := by
  refine ⟨?_, ?_⟩
  · intro p hp
    simp only [List.mem_singleton] at hp
    subst hp
    norm_num
  have hlogb3 : 0 < Real.logb 2 3 := Real.logb_pos one_lt_two (by norm_num)
  have hideal : idealOrder [("a", (1 : ℚ))] = ["a"] := by
    simp [idealOrder, List.mergeSort_singleton]
  have hlook : lookupScore [("a", (1 : ℚ))] "a" = 1 := rfl
  have hidcg : dcg (idealOrder [("a", (1 : ℚ))]) [("a", 1)] 2 = 1 := by
    rw [hideal, dcg]
    show dcgAux [("a", 1)] ["a"] 1 = 1
    simp only [dcgAux, hlook]
    norm_num [Real.logb_self_eq_one one_lt_two]
  have hadcg : dcg ["a", "a"] [("a", (1 : ℚ))] 2 = 1 + 1 / Real.logb 2 3 := by
    rw [dcg]
    show dcgAux [("a", 1)] ["a", "a"] 1 = 1 + 1 / Real.logb 2 3
    simp only [dcgAux, hlook]
    push_cast
    rw [show ((1 : ℝ) + 1) = 2 from by norm_num,
      Real.logb_self_eq_one one_lt_two,
      show ((2 : ℝ) + 1) = 3 from by norm_num]
    ring
  rw [ndcg_at_k, if_neg (by simp)]
  simp only [hidcg, hadcg]
  rw [if_neg one_ne_zero]
  rw [div_one]
  have : 0 < 1 / Real.logb 2 3 := by positivity
  linarith

end LexRag
